import Mathlib

/-!
# BodyComponentDB

A shallow embedding of `src/BodyComponent.h`: the per-type component pool
`Pool<T>`, the process-wide pool registry and the serializer registry.

Conventions of the embedding

* `const Body *` is an address, a natural number, used only as a map key.
* `std::map<K, V>` is an association list with first-match lookup; the
  operations of the source (`find`, `count`, `at`, `erase`, `emplace`) are
  the functions of the `StdMap` namespace. The subscript `m_components[body]`
  allocates a node and is part of `Pool.newComponent`.
* Objects made by `new` live in a heap that only grows: the address of an
  object is its position in the heap, so a fresh object gets the address
  `heap.length`. Pointers are addresses, `nullptr` is `none`.
* `assert(c)` with `c` false and a thrown `std::out_of_range` end the
  operation with a `Fault`; every other path returns the new state.
* `size_t` counters are natural numbers: the only counter, `m_componentIdx`,
  counts the component types of the program and cannot wrap.
-/

namespace BodyComponentDB

/-- The ways an operation of the source does not return. -/
inductive Fault where
  /-- An `assert(...)` of the source failed. -/
  | assertFailed
  /-- The exception `std::out_of_range` left `std::map::at`; nothing in the source catches it. -/
  | outOfRange
  /-- A member call through an address at which no pool was ever allocated. -/
  | wildPointer
  deriving DecidableEq, Repr

/-- The type `const Body *`: an entity key, compared by address only. -/
abbrev BodyPtr := Nat

/-! ## `std::map` -/

namespace StdMap

variable {K V : Type} [DecidableEq K]

/-- The lookup `std::map::find`: the mapped value of the element with key `k`, `none` for `end()`. -/
def find : List (K × V) → K → Option V
  | [], _ => none
  | (k', v) :: m, k => if k' = k then some v else find m k

/-- The member `std::map::count`: the number of elements with key `k`, zero or one. -/
def count (m : List (K × V)) (k : K) : Nat :=
  match find m k with
  | some _ => 1
  | none => 0

/-- The member `std::map::at`: the mapped value, or the exception `std::out_of_range`. -/
def atKey (m : List (K × V)) (k : K) : Except Fault V :=
  match find m k with
  | some v => .ok v
  | none => .error .outOfRange

/-- The member `std::map::erase(key)`: removes the element with key `k` if there is one. -/
def erase (m : List (K × V)) (k : K) : List (K × V) :=
  m.filter (fun kv => decide (kv.1 ≠ k))

/-- The member `std::map::emplace(k, v)`: inserts `(k, v)` unless the key is taken; the second
component is the mapped value of the element that the returned iterator designates. -/
def emplace (m : List (K × V)) (k : K) (v : V) : List (K × V) × V :=
  match find m k with
  | some v' => (m, v')
  | none => (m ++ [(k, v)], v)

end StdMap

/-! ## `Pool<T>` -/

/-- A node of `m_components`: the component value together with the address of the node that
holds it, which is what `&m_components[body]` evaluates to. -/
structure Node (T : Type) where
  /-- The address of the map node; nodes of one pool never share it. -/
  addr : Nat
  /-- The component value stored in the node. -/
  val : T
  deriving DecidableEq, Repr

/-- The struct `Pool<T>` with the members it inherits from `PoolBase`. -/
structure Pool (T : Type) where
  /-- The member `PoolBase::componentIndex`. -/
  componentIndex : Nat
  /-- The member `PoolBase::componentType`. -/
  componentType : Nat
  /-- The member `PoolBase::serializer`, a `SerializerBase *`; `none` is `nullptr`. -/
  serializer : Option Nat
  /-- The member `std::map<const Body *, T> m_components`. -/
  m_components : List (BodyPtr × Node T)
  /-- The number of map nodes allocated so far, the address of the next one. -/
  m_allocated : Nat
  deriving DecidableEq, Repr

namespace Pool

variable {T : Type}

/-- The inherited constructor `PoolBase(size_t index, size_t type)`: the serializer starts as
`nullptr` and the component map is empty. -/
def create (index type : Nat) : Pool T :=
  { componentIndex := index, componentType := type, serializer := none,
    m_components := [], m_allocated := 0 }

/-- The member `deleteComponent(Body *body)`: `m_components.erase(body)`. -/
def deleteComponent (p : Pool T) (body : BodyPtr) : Pool T :=
  { p with m_components := StdMap.erase p.m_components body }

/-- The member `newComponent(const Body *body)`: `&m_components[body]`. The subscript finds the
node of `body`, or allocates one holding a default-constructed `T`; the result is the state
after the call and the address of the node. -/
def newComponent [Inhabited T] (p : Pool T) (body : BodyPtr) : Pool T × Nat :=
  match StdMap.find p.m_components body with
  | some n => (p, n.addr)
  | none =>
    ({ p with m_components := p.m_components ++ [(body, { addr := p.m_allocated, val := default })],
              m_allocated := p.m_allocated + 1 },
     p.m_allocated)

/-- The member `get(const Body *body)`: `&m_components.at(body)`. -/
def get (p : Pool T) (body : BodyPtr) : Except Fault (Pool T × Nat) :=
  match StdMap.atKey p.m_components body with
  | .ok n => .ok (p, n.addr)
  | .error f => .error f

/-- Reading through a `T *`: the value held by the node at address `a`, if the pool has one. -/
def deref (p : Pool T) (a : Nat) : Option T :=
  (p.m_components.find? (fun kv => decide (kv.2.addr = a))).map (fun kv => kv.2.val)

/-- The component of `body`: the value `m_components` maps the key to, if any. -/
def component (p : Pool T) (body : BodyPtr) : Option T :=
  (StdMap.find p.m_components body).map Node.val

/-- The addresses of the nodes of a pool are pairwise different and below the allocation
counter, and no key occurs twice: what every sequence of member calls on a created pool keeps. -/
def WF (p : Pool T) : Prop :=
  (p.m_components.map Prod.fst).Nodup ∧
  (p.m_components.map (fun kv => kv.2.addr)).Nodup ∧
  ∀ kv ∈ p.m_components, kv.2.addr < p.m_allocated

end Pool

/-! ## The registry: the static members of `BodyComponentDB` and its static functions -/

section Registry

variable {Ty : Type} {El : Ty → Type}

/-- The struct `Serializer<T>` with the member `typeName` it inherits from `SerializerBase`. -/
structure Serializer (Ty : Type) where
  /-- The template argument `T` of the object. -/
  dyn : Ty
  /-- The member `SerializerBase::typeName`. -/
  typeName : String
  /-- The member `Pool<T> *pool`. -/
  pool : Nat
  deriving DecidableEq, Repr

/-- The static members of `BodyComponentDB`, and the two heaps that hold the objects they point
to. `Ty` names the component types of the program, `El T` is the set of values of type `T`; a
heap cell of `poolHeap` holds the template argument `T` next to the `Pool<T>` object. -/
structure State (El : Ty → Type) where
  /-- The objects made by `new Pool<T>(...)`, by address. -/
  poolHeap : List (Σ t : Ty, Pool (El t))
  /-- The objects made by `new Serializer<T>(...)`, by address. -/
  serializerHeap : List (Serializer Ty)
  /-- The member `std::map<size_t, std::unique_ptr<PoolBase>> m_componentPools`. -/
  m_componentPools : List (Nat × Nat)
  /-- The member `std::map<std::string, std::unique_ptr<SerializerBase>> m_componentSerializers`. -/
  m_componentSerializers : List (String × Nat)
  /-- The member `std::vector<PoolBase *> m_componentTypes`. -/
  m_componentTypes : List Nat
  /-- The member `size_t m_componentIdx`. -/
  m_componentIdx : Nat

/-- Modelled from the spec: the definitions of the static members are in a translation unit that
is not part of the sources; the registry starts with no pool, no serializer and the first dense
index 0 ("the first type requested gets index 0"). -/
def State.initial : State El :=
  { poolHeap := [], serializerHeap := [], m_componentPools := [], m_componentSerializers := [],
    m_componentTypes := [], m_componentIdx := 0 }

/-- The assignment `pool->serializer = serial` on a heap cell. -/
def setSerializer (serial : Nat) (obj : Σ t : Ty, Pool (El t)) : Σ t : Ty, Pool (El t) :=
  ⟨obj.1, { obj.2 with serializer := some serial }⟩

/-- The function template `GetComponentType<T>()`. `typeId T` is `TypeId<T>::Get()`, which the
sources only declare (`core/TypeId.h`). The result is the state after the call and the returned
`Pool<T> *`; the `static_cast` does not touch the address. -/
def GetComponentType (typeId : Ty → Nat) (T : Ty) (db : State El) : State El × Nat :=
  match StdMap.find db.m_componentPools (typeId T) with
  | some pool => (db, pool)
  | none =>
    let pool := db.poolHeap.length
    let r := StdMap.emplace db.m_componentPools (typeId T) pool
    ({ db with
        poolHeap := db.poolHeap ++ [⟨T, Pool.create db.m_componentIdx (typeId T)⟩],
        m_componentIdx := db.m_componentIdx + 1,
        m_componentPools := r.1,
        m_componentTypes := db.m_componentTypes ++ [pool] },
     r.2)

/-- The function `GetComponentType(size_t componentIndex)`. -/
def GetComponentTypeAt (componentIndex : Nat) (db : State El) : Except Fault (State El × Nat) :=
  if h : componentIndex < db.m_componentTypes.length then
    .ok (db, db.m_componentTypes.get ⟨componentIndex, h⟩)
  else
    .error .assertFailed

/-- The function template `RegisterSerializer<T>(std::string typeName)`. -/
def RegisterSerializer (typeId : Ty → Nat) (T : Ty) (typeName : String) (db : State El) :
    Except Fault (State El × Bool) :=
  if StdMap.count db.m_componentSerializers typeName ≠ 0 then
    .error .assertFailed
  else
    let r1 := GetComponentType typeId T db
    let serial := r1.1.serializerHeap.length
    let db2 : State El :=
      { r1.1 with
          serializerHeap := r1.1.serializerHeap ++ [{ dyn := T, typeName := typeName, pool := r1.2 }] }
    let db3 : State El :=
      { db2 with
          m_componentSerializers := (StdMap.emplace db2.m_componentSerializers typeName serial).1 }
    let r4 := GetComponentType typeId T db3
    let db5 : State El :=
      { r4.1 with poolHeap := r4.1.poolHeap.modify (setSerializer serial) r4.2 }
    .ok (db5, true)

/-- The function `GetSerializer(const std::string &typeName)`; `none` is `nullptr`. -/
def GetSerializer (typeName : String) (db : State El) : State El × Option Nat :=
  match StdMap.find db.m_componentSerializers typeName with
  | some serial => (db, some serial)
  | none => (db, none)

/-- The state `RegisterSerializer<T>(typeName)` leaves when its assertion holds. -/
def registered (typeId : Ty → Nat) (T : Ty) (typeName : String) (db : State El) : State El :=
  { (GetComponentType typeId T db).1 with
      serializerHeap := db.serializerHeap ++
        [{ dyn := T, typeName := typeName, pool := (GetComponentType typeId T db).2 }],
      m_componentSerializers := db.m_componentSerializers ++ [(typeName, db.serializerHeap.length)],
      poolHeap := (GetComponentType typeId T db).1.poolHeap.modify
        (setSerializer db.serializerHeap.length) (GetComponentType typeId T db).2 }

/-- A member call on the pool at address `pool`: the call `f` runs on the object in the heap
cell and its result is written back. -/
def callPool (db : State El) (pool : Nat)
    (f : (t : Ty) → Pool (El t) → Except Fault (Pool (El t))) : Except Fault (State El) :=
  match db.poolHeap[pool]? with
  | none => .error .wildPointer
  | some obj =>
    match f obj.1 obj.2 with
    | .error e => .error e
    | .ok p => .ok { db with poolHeap := db.poolHeap.set pool ⟨obj.1, p⟩ }

/-- Writing through a `T *`: the node at address `a` gets the value `f` makes of its old one. -/
def Pool.update {T : Type} (p : Pool T) (a : Nat) (f : T → T) : Pool T :=
  { p with m_components :=
      p.m_components.map (fun kv => if kv.2.addr = a then (kv.1, { kv.2 with val := f kv.2.val }) else kv) }

/-- The two member functions `Serializer<T>` calls on a component: `SaveToJson(Json &, Space *)`
reads the component and writes the document, `LoadFromJson(const Json &, Space *)` reads the
document and writes the component. They belong to the component types, which are not part of
the sources, and are parameters; the context `Space *` is passed through. -/
structure ComponentOps (T Json Space : Type) where
  /-- The document after `c.SaveToJson(obj, space)`. -/
  SaveToJson : T → Json → Space → Json
  /-- The component after `c.LoadFromJson(obj, space)`. -/
  LoadFromJson : T → Json → Space → T

/-- The member `Serializer<T>::toJson(body, obj, space)`, as a function of the pool the
serializer points to: `pool->get(body)->SaveToJson(obj, space)`. The result is the pool and the
document after the call. -/
def Serializer.toJson {T Json Space : Type} (ops : ComponentOps T Json Space) (pool : Pool T)
    (body : BodyPtr) (obj : Json) (space : Space) : Except Fault (Pool T × Json) :=
  match pool.get body with
  | .error f => .error f
  | .ok r =>
    match r.1.deref r.2 with
    | some c => .ok (r.1, ops.SaveToJson c obj space)
    | none => .error .wildPointer

/-- The member `Serializer<T>::fromJson(body, obj, space)`, as a function of the pool the
serializer points to: `component = pool->newComponent(body)` and then
`component->LoadFromJson(obj, space)`. -/
def Serializer.fromJson {T Json Space : Type} [Inhabited T] (ops : ComponentOps T Json Space)
    (pool : Pool T) (body : BodyPtr) (obj : Json) (space : Space) : Pool T :=
  let r := pool.newComponent body
  r.1.update r.2 (fun c => ops.LoadFromJson c obj space)

/-- The public operations of the registry and of the pools it hands out. `update` is a write
through a component pointer, which is all that `LoadFromJson` in `Serializer<T>::fromJson` can
do to a pool. -/
inductive Op (El : Ty → Type) where
  | getComponentType (T : Ty)
  | getComponentTypeAt (componentIndex : Nat)
  | registerSerializer (T : Ty) (typeName : String)
  | getSerializer (typeName : String)
  | newComponent (pool : Nat) (body : BodyPtr)
  | get (pool : Nat) (body : BodyPtr)
  | deleteComponent (pool : Nat) (body : BodyPtr)
  | update (pool : Nat) (a : Nat) (f : (t : Ty) → El t → El t)

/-- The state after one operation, or the fault that ends the process. -/
def step [∀ t, Inhabited (El t)] (typeId : Ty → Nat) (db : State El) :
    Op El → Except Fault (State El)
  | .getComponentType T => .ok (GetComponentType typeId T db).1
  | .getComponentTypeAt i =>
    match GetComponentTypeAt i db with
    | .ok r => .ok r.1
    | .error e => .error e
  | .registerSerializer T n =>
    match RegisterSerializer typeId T n db with
    | .ok r => .ok r.1
    | .error e => .error e
  | .getSerializer n => .ok (GetSerializer n db).1
  | .newComponent pool body => callPool db pool (fun _ p => .ok (p.newComponent body).1)
  | .get pool body =>
    callPool db pool (fun _ p =>
      match p.get body with
      | .ok r => .ok r.1
      | .error e => .error e)
  | .deleteComponent pool body => callPool db pool (fun _ p => .ok (p.deleteComponent body))
  | .update pool a f => callPool db pool (fun t p => .ok (p.update a (f t)))

/-- The state after a sequence of operations, or the first fault. -/
def run [∀ t, Inhabited (El t)] (typeId : Ty → Nat) :
    List (Op El) → State El → Except Fault (State El)
  | [], db => .ok db
  | op :: ops, db =>
    match step typeId db op with
    | .ok db1 => run typeId ops db1
    | .error e => .error e

/-- The states the process can be in: those a sequence of operations leads to from the initial
registry. -/
def Reachable [∀ t, Inhabited (El t)] (typeId : Ty → Nat) (db : State El) : Prop :=
  ∃ ops : List (Op El), run typeId ops State.initial = .ok db

/-- The template arguments of the pools of the registry, in the order of creation. -/
def State.poolTypes (db : State El) : List Ty :=
  db.poolHeap.map (fun o => o.1)

/-- The type an operation asks `GetComponentType<T>()` for, if it does. -/
def Op.requested : Op El → Option Ty
  | .getComponentType T => some T
  | .registerSerializer T _ => some T
  | _ => none

/-- The list `seen` extended by the types of `req` that are new, each at its first occurrence. -/
def requestOrder [DecidableEq Ty] (seen : List Ty) : List Ty → List Ty
  | [] => seen
  | T :: req => requestOrder (if T ∈ seen then seen else seen ++ [T]) req

/-- The distinct types requested by a sequence of operations, in the order of first request. -/
def firstRequested [DecidableEq Ty] (ops : List (Op El)) : List Ty :=
  requestOrder [] (ops.filterMap Op.requested)

/-- The type and the name an operation registers a serializer for, if it does. -/
def Op.registration : Op El → Option (Ty × String)
  | .registerSerializer T typeName => some (T, typeName)
  | _ => none

/-- The registrations of a sequence of operations, in order. -/
def registrations (ops : List (Op El)) : List (Ty × String) :=
  ops.filterMap Op.registration

/-- The name of the last registration of the type `T` in a list of registrations. -/
def lastRegistered [DecidableEq Ty] (T : Ty) : List (Ty × String) → Option String
  | [] => none
  | r :: rs =>
    match lastRegistered T rs with
    | some n => some n
    | none => if r.1 = T then some r.2 else none

/-- The serializer link of the pool that `GetComponentType<T>()` finds: `none` when the type has
no pool yet or its pool has `serializer == nullptr`. -/
def backref (typeId : Ty → Nat) (db : State El) (T : Ty) : Option Nat :=
  match StdMap.find db.m_componentPools (typeId T) with
  | none => none
  | some pool =>
    match db.poolHeap[pool]? with
    | none => none
    | some o => o.2.serializer

/-- The invariant of the pool registry: the dense index counter is the number of pools, the
dense sequence and the values of the type-key map list the pools in the order of creation, the
keys of the map are the type keys of the pools and pairwise different, and every pool carries its
position as `componentIndex` and the key of its type as `componentType`. -/
structure Inv (typeId : Ty → Nat) (db : State El) : Prop where
  idx : db.m_componentIdx = db.poolHeap.length
  types : db.m_componentTypes = List.range db.poolHeap.length
  pools_val : db.m_componentPools.map Prod.snd = List.range db.poolHeap.length
  pools_key : db.m_componentPools.map Prod.fst = db.poolHeap.map (fun o => typeId o.1)
  keys_nodup : (db.m_componentPools.map Prod.fst).Nodup
  cell : ∀ (i : Nat) (o : Σ t : Ty, Pool (El t)), db.poolHeap[i]? = some o →
    o.2.componentIndex = i ∧ o.2.componentType = typeId o.1

/-- The invariant of the serializer registry: the values of the name table list the serializers
in the order of creation, its keys are their names and pairwise different, the serializer link
of a pool points to a serializer that is bound to this pool, and every pool is well formed. -/
structure SerInv (db : State El) : Prop where
  ser_val : db.m_componentSerializers.map Prod.snd = List.range db.serializerHeap.length
  ser_key : db.m_componentSerializers.map Prod.fst = db.serializerHeap.map (fun x => x.typeName)
  names_nodup : (db.m_componentSerializers.map Prod.fst).Nodup
  link : ∀ (i : Nat) (o : Σ t : Ty, Pool (El t)) (s : Nat), db.poolHeap[i]? = some o →
    o.2.serializer = some s → ∃ x, db.serializerHeap[s]? = some x ∧ x.pool = i
  pools_wf : ∀ (i : Nat) (o : Σ t : Ty, Pool (El t)), db.poolHeap[i]? = some o → o.2.WF

end Registry

/-! ## A concrete run

Component types are named by numbers, every type holds a natural number with default 0, and
the key of a type is its number. -/

namespace Demo

/-- The values of the component types of the run. -/
abbrev El : Nat → Type := fun _ => Nat

/-- Type 7 is requested, type 3 is registered under the name Orbit, body 100 gets a component of
type 3, and 5 is written to it. -/
def ops : List (Op El) :=
  [.getComponentType 7, .registerSerializer 3 "Orbit", .newComponent 1 100,
   .update 1 0 (fun _ v => v + 5)]

/-- The registry after `ops`. -/
def state : State El :=
  { poolHeap :=
      [⟨7, { componentIndex := 0, componentType := 7, serializer := none,
             m_components := [], m_allocated := 0 }⟩,
       ⟨3, { componentIndex := 1, componentType := 3, serializer := some 0,
             m_components := [(100, { addr := 0, val := 5 })], m_allocated := 1 }⟩],
    serializerHeap := [{ dyn := 3, typeName := "Orbit", pool := 1 }],
    m_componentPools := [(7, 0), (3, 1)],
    m_componentSerializers := [("Orbit", 0)],
    m_componentTypes := [0, 1],
    m_componentIdx := 2 }

/-- Type 7 is registered under the name Hull, the component of body 100 is deleted, type 9 is
requested and looked up by its index, and body 4 gets a component of type 9. -/
def more : List (Op El) :=
  [.registerSerializer 7 "Hull", .deleteComponent 1 100, .getComponentType 9,
   .getComponentTypeAt 2, .newComponent 2 4]

/-- The registry after `ops` and `more`. -/
def later : State El :=
  { poolHeap :=
      [⟨7, { componentIndex := 0, componentType := 7, serializer := some 1,
             m_components := [], m_allocated := 0 }⟩,
       ⟨3, { componentIndex := 1, componentType := 3, serializer := some 0,
             m_components := [], m_allocated := 1 }⟩,
       ⟨9, { componentIndex := 2, componentType := 9, serializer := none,
             m_components := [(4, { addr := 0, val := 0 })], m_allocated := 1 }⟩],
    serializerHeap :=
      [{ dyn := 3, typeName := "Orbit", pool := 1 }, { dyn := 7, typeName := "Hull", pool := 0 }],
    m_componentPools := [(7, 0), (3, 1), (9, 2)],
    m_componentSerializers := [("Orbit", 0), ("Hull", 1)],
    m_componentTypes := [0, 1, 2],
    m_componentIdx := 3 }

/-- Type 3 is registered under the name Orbit and then under the name OrbitV2. -/
def twice : List (Op El) :=
  [.registerSerializer 3 "Orbit", .registerSerializer 3 "OrbitV2"]

/-- The registry after `twice`. -/
def renamed : State El :=
  { poolHeap :=
      [⟨3, { componentIndex := 0, componentType := 3, serializer := some 1,
             m_components := [], m_allocated := 0 }⟩],
    serializerHeap :=
      [{ dyn := 3, typeName := "Orbit", pool := 0 }, { dyn := 3, typeName := "OrbitV2", pool := 0 }],
    m_componentPools := [(3, 0)],
    m_componentSerializers := [("Orbit", 0), ("OrbitV2", 1)],
    m_componentTypes := [0],
    m_componentIdx := 1 }

/-- A component type for the run: a number that is saved in front of the document and loaded
from the front of the document, if the document has one. -/
def natOps : ComponentOps Nat (List Nat) Unit :=
  { SaveToJson := fun c obj _ => c :: obj,
    LoadFromJson := fun c obj _ => obj.headD c }

/-- The pool of type 3 of the registry after `ops`: body 100 has the component 5. -/
def pool : Pool Nat :=
  { componentIndex := 1, componentType := 3, serializer := some 0,
    m_components := [(100, { addr := 0, val := 5 })], m_allocated := 1 }

end Demo

/-! ## Lemmas on `std::map` -/

namespace StdMap

variable {K V : Type} [DecidableEq K]

theorem find_append_none (m : List (K × V)) (k k' : K) (v : V) (h : find m k = none) :
    find (m ++ [(k', v)]) k = if k' = k then some v else none := by
  induction m with
  | nil => simp [find]
  | cons hd tl ih =>
    obtain ⟨a, b⟩ := hd
    simp only [find, List.cons_append] at h ⊢
    by_cases hk : a = k
    · simp [hk] at h
    · simp only [hk, if_false] at h ⊢
      exact ih h

theorem find_append_some (m : List (K × V)) (k k' : K) (v w : V) (h : find m k = some w) :
    find (m ++ [(k', v)]) k = some w := by
  induction m with
  | nil => simp [find] at h
  | cons hd tl ih =>
    obtain ⟨a, b⟩ := hd
    simp only [find, List.cons_append] at h ⊢
    by_cases hk : a = k
    · simpa [hk] using h
    · simp only [hk, if_false] at h ⊢
      exact ih h

theorem erase_cons_eq (a : K) (b : V) (tl : List (K × V)) (k : K) (h : a = k) :
    erase ((a, b) :: tl) k = erase tl k := by
  simp [erase, List.filter_cons, h]

theorem erase_cons_ne (a : K) (b : V) (tl : List (K × V)) (k : K) (h : ¬ a = k) :
    erase ((a, b) :: tl) k = (a, b) :: erase tl k := by
  simp [erase, List.filter_cons, h]

theorem find_erase_self (m : List (K × V)) (k : K) : find (erase m k) k = none := by
  induction m with
  | nil => simp [erase, find]
  | cons hd tl ih =>
    obtain ⟨a, b⟩ := hd
    by_cases hk : a = k
    · rw [erase_cons_eq a b tl k hk]; exact ih
    · rw [erase_cons_ne a b tl k hk]; simp only [find, hk, if_false]; exact ih

theorem find_erase_ne (m : List (K × V)) (k k' : K) (h : k' ≠ k) :
    find (erase m k) k' = find m k' := by
  induction m with
  | nil => simp [erase, find]
  | cons hd tl ih =>
    obtain ⟨a, b⟩ := hd
    by_cases hk : a = k
    · have hk' : ¬ a = k' := fun e => h (e ▸ hk)
      rw [erase_cons_eq a b tl k hk]
      simp only [find, hk', if_false]; exact ih
    · rw [erase_cons_ne a b tl k hk]
      by_cases hk' : a = k'
      · simp only [find, hk', if_true]
      · simp only [find, hk', if_false]; exact ih

theorem erase_of_find_none (m : List (K × V)) (k : K) (h : find m k = none) :
    erase m k = m := by
  induction m with
  | nil => simp [erase]
  | cons hd tl ih =>
    obtain ⟨a, b⟩ := hd
    simp only [find] at h
    by_cases hk : a = k
    · simp [hk] at h
    · simp only [hk, if_false] at h
      rw [erase_cons_ne a b tl k hk, ih h]

theorem find_eq_none_iff (m : List (K × V)) (k : K) :
    find m k = none ↔ k ∉ m.map Prod.fst := by
  induction m with
  | nil => simp [find]
  | cons hd tl ih =>
    obtain ⟨a, b⟩ := hd
    by_cases hk : a = k
    · simp [find, hk]
    · have hk' : ¬ k = a := fun e => hk e.symm
      simp only [find, hk, if_false, List.map_cons, List.mem_cons, hk', false_or]
      exact ih

theorem find_of_mem_nodup (m : List (K × V)) (k : K) (v : V)
    (hn : (m.map Prod.fst).Nodup) (hm : (k, v) ∈ m) : find m k = some v := by
  induction m with
  | nil => cases hm
  | cons hd tl ih =>
    obtain ⟨a, b⟩ := hd
    simp only [List.map_cons, List.nodup_cons] at hn
    rcases List.mem_cons.mp hm with h | h
    · cases h
      simp [find]
    · have hk : ¬ a = k := by
        intro e
        apply hn.1
        rw [e]
        exact List.mem_map_of_mem Prod.fst h
      simp only [find, hk, if_false]
      exact ih hn.2 h

theorem mem_of_find (m : List (K × V)) (k : K) (v : V) (h : find m k = some v) :
    (k, v) ∈ m := by
  induction m with
  | nil => simp [find] at h
  | cons hd tl ih =>
    obtain ⟨a, b⟩ := hd
    by_cases hk : a = k
    · simp only [find, hk, if_true, Option.some.injEq] at h
      simp [hk, h]
    · simp only [find, hk, if_false] at h
      exact List.mem_cons_of_mem _ (ih h)

theorem emplace_of_none (m : List (K × V)) (k : K) (v : V) (h : find m k = none) :
    emplace m k v = (m ++ [(k, v)], v) := by
  simp [emplace, h]

theorem count_eq_zero_iff (m : List (K × V)) (k : K) : count m k = 0 ↔ find m k = none := by
  unfold count
  cases find m k <;> simp

end StdMap

/-! ## The pool -/

namespace Pool

variable {T : Type}

theorem newComponent_of_some [Inhabited T] (p : Pool T) (e : BodyPtr) (n : Node T)
    (h : StdMap.find p.m_components e = some n) : p.newComponent e = (p, n.addr) := by
  simp [newComponent, h]

theorem newComponent_of_none [Inhabited T] (p : Pool T) (e : BodyPtr)
    (h : StdMap.find p.m_components e = none) :
    p.newComponent e =
      ({ p with
          m_components := p.m_components ++ [(e, { addr := p.m_allocated, val := default })],
          m_allocated := p.m_allocated + 1 },
        p.m_allocated) := by
  simp [newComponent, h]

theorem get_of_some (p : Pool T) (e : BodyPtr) (n : Node T)
    (h : StdMap.find p.m_components e = some n) : p.get e = .ok (p, n.addr) := by
  simp [get, StdMap.atKey, h]

theorem get_of_none (p : Pool T) (e : BodyPtr)
    (h : StdMap.find p.m_components e = none) : p.get e = .error .outOfRange := by
  simp [get, StdMap.atKey, h]

theorem newComponent_find [Inhabited T] (p : Pool T) (e : BodyPtr) :
    ∃ n, StdMap.find (p.newComponent e).1.m_components e = some n ∧
      n.addr = (p.newComponent e).2 := by
  cases h : StdMap.find p.m_components e with
  | some n =>
    rw [newComponent_of_some p e n h]
    exact ⟨n, h, rfl⟩
  | none =>
    rw [newComponent_of_none p e h]
    refine ⟨{ addr := p.m_allocated, val := default }, ?_, rfl⟩
    simp [StdMap.find_append_none _ _ _ _ h]

/-- Claim C1. Calling `newComponent(e)` twice gives the same component instance both times: the
second call returns the address the first returned and leaves the pool, its entity to component
map included, as the first call left it; `get(e)` then succeeds, with that address again, and the
address is the one of the node the map holds for `e`. -/
theorem newComponent_twice_same_instance [Inhabited T] (p : Pool T) (e : BodyPtr) :
    (p.newComponent e).1.newComponent e = ((p.newComponent e).1, (p.newComponent e).2) ∧
    (p.newComponent e).1.get e = .ok ((p.newComponent e).1, (p.newComponent e).2) ∧
    ∃ n, StdMap.find (p.newComponent e).1.m_components e = some n ∧
      n.addr = (p.newComponent e).2 := by
  obtain ⟨n, hn, ha⟩ := newComponent_find p e
  refine ⟨?_, ?_, n, hn, ha⟩
  · rw [newComponent_of_some _ e n hn, ha]
  · rw [get_of_some _ e n hn, ha]

/-- Claim C2. Whatever `e` held before, `deleteComponent(e)` followed by `newComponent(e)`
returns a newly allocated node (its address is the allocation counter of the pool, which the
call advances) that is the component of `e` and holds the default value of `T`. -/
theorem deleteComponent_newComponent_default [Inhabited T] (p : Pool T) (e : BodyPtr) :
    StdMap.find ((p.deleteComponent e).newComponent e).1.m_components e
        = some { addr := ((p.deleteComponent e).newComponent e).2, val := default } ∧
    ((p.deleteComponent e).newComponent e).1.component e = some default ∧
    ((p.deleteComponent e).newComponent e).2 = p.m_allocated ∧
    ((p.deleteComponent e).newComponent e).1.m_allocated = p.m_allocated + 1 := by
  have h : StdMap.find (p.deleteComponent e).m_components e = none := by
    simp [deleteComponent, StdMap.find_erase_self]
  rw [newComponent_of_none _ e h]
  have hf : StdMap.find ((p.deleteComponent e).m_components ++
      [(e, ({ addr := (p.deleteComponent e).m_allocated, val := default } : Node T))]) e
      = some { addr := (p.deleteComponent e).m_allocated, val := default } := by
    rw [StdMap.find_append_none _ _ _ _ h]; simp
  refine ⟨hf, ?_, rfl, rfl⟩
  show Option.map Node.val (StdMap.find _ e) = some default
  rw [hf]; rfl

/-- Claim C3. The call `get(e)` does not return exactly when the pool holds no component for
`e` (the lookup `m_components.at` throws); when the map holds a node for `e` the call returns
the address of that node and the pool is as before. -/
theorem get_fails_iff_absent (p : Pool T) (e : BodyPtr) :
    ((∃ f, p.get e = .error f) ↔ p.component e = none) ∧
    (p.get e = .error .outOfRange ↔ StdMap.find p.m_components e = none) ∧
    (∀ n, StdMap.find p.m_components e = some n →
      p.get e = .ok (p, n.addr) ∧ p.component e = some n.val) := by
  cases h : StdMap.find p.m_components e with
  | none =>
    refine ⟨?_, ?_, ?_⟩
    · simp [get_of_none p e h, component, h]
    · simp [get_of_none p e h]
    · intro n hn; cases hn
  | some n =>
    refine ⟨?_, ?_, ?_⟩
    · simp [get_of_some p e n h, component, h]
    · simp [get_of_some p e n h]
    · intro n1 hn
      cases hn
      exact ⟨get_of_some p e n h, by simp [component, h]⟩

/-- Claim C4. The call `deleteComponent(e)` always returns; afterwards the pool has no component
for `e`; a pool that had none is returned as it was; the node of every other key is kept, as
are the index, the type key, the serializer link and the allocation counter. -/
theorem deleteComponent_frame (p : Pool T) (e : BodyPtr) :
    StdMap.find (p.deleteComponent e).m_components e = none ∧
    (p.deleteComponent e).component e = none ∧
    (StdMap.find p.m_components e = none → p.deleteComponent e = p) ∧
    (∀ e1, e1 ≠ e →
      StdMap.find (p.deleteComponent e).m_components e1 = StdMap.find p.m_components e1) ∧
    (p.deleteComponent e).componentIndex = p.componentIndex ∧
    (p.deleteComponent e).componentType = p.componentType ∧
    (p.deleteComponent e).serializer = p.serializer ∧
    (p.deleteComponent e).m_allocated = p.m_allocated := by
  refine ⟨?_, ?_, ?_, ?_, rfl, rfl, rfl, rfl⟩
  · simp [deleteComponent, StdMap.find_erase_self]
  · simp [component, deleteComponent, StdMap.find_erase_self]
  · intro h
    simp [deleteComponent, StdMap.erase_of_find_none _ _ h]
  · intro e1 h1
    simp [deleteComponent, StdMap.find_erase_ne _ _ _ h1]

/-! ### Well-formed pools and reading through a component pointer -/

theorem WF_create (index type : Nat) : (create index type : Pool T).WF :=
  ⟨List.nodup_nil, List.nodup_nil, by intro kv h; cases h⟩

theorem WF_deleteComponent (p : Pool T) (e : BodyPtr) (h : p.WF) : (p.deleteComponent e).WF := by
  obtain ⟨h1, h2, h3⟩ := h
  have hsub : (StdMap.erase p.m_components e).Sublist p.m_components := List.filter_sublist _
  refine ⟨h1.sublist (hsub.map _), h2.sublist (hsub.map _), ?_⟩
  intro kv hkv
  exact h3 kv (hsub.subset hkv)

theorem WF_newComponent [Inhabited T] (p : Pool T) (e : BodyPtr) (h : p.WF) :
    (p.newComponent e).1.WF := by
  cases hf : StdMap.find p.m_components e with
  | some n => rw [newComponent_of_some p e n hf]; exact h
  | none =>
    rw [newComponent_of_none p e hf]
    obtain ⟨h1, h2, h3⟩ := h
    have hk : e ∉ p.m_components.map Prod.fst := (StdMap.find_eq_none_iff _ _).mp hf
    refine ⟨?_, ?_, ?_⟩
    · simp only [List.map_append, List.map_cons, List.map_nil]
      rw [List.nodup_append]
      refine ⟨h1, List.nodup_singleton _, ?_⟩
      intro a ha hb
      simp only [List.mem_singleton] at hb
      exact hk (hb ▸ ha)
    · simp only [List.map_append, List.map_cons, List.map_nil]
      rw [List.nodup_append]
      refine ⟨h2, List.nodup_singleton _, ?_⟩
      intro a ha hb
      simp only [List.mem_singleton] at hb
      obtain ⟨kv, hkv, rfl⟩ := List.mem_map.mp ha
      have := h3 kv hkv
      omega
    · intro kv hkv
      simp only [List.mem_append, List.mem_singleton] at hkv
      rcases hkv with hkv | rfl
      · exact Nat.lt_succ_of_lt (h3 kv hkv)
      · exact Nat.lt_succ_self _

theorem deref_of_find (p : Pool T) (e : BodyPtr) (n : Node T) (h : p.WF)
    (hf : StdMap.find p.m_components e = some n) : p.deref n.addr = some n.val := by
  obtain ⟨-, h2, -⟩ := h
  have hmem := StdMap.mem_of_find _ _ _ hf
  unfold deref
  generalize p.m_components = m at h2 hmem
  induction m with
  | nil => cases hmem
  | cons hd tl ih =>
    simp only [List.map_cons, List.nodup_cons] at h2
    rcases List.mem_cons.mp hmem with heq | htl
    · subst heq
      simp [List.find?_cons]
    · have hne : ¬ hd.2.addr = n.addr := by
        intro heq
        apply h2.1
        rw [heq]
        exact List.mem_map_of_mem (fun kv : BodyPtr × Node T => kv.2.addr) htl
      simp only [List.find?_cons, hne, decide_False]
      exact ih h2.2 htl

end Pool

/-! ## The registry -/

section RegistryLemmas

variable {Ty : Type} {El : Ty → Type} (typeId : Ty → Nat)

theorem GetComponentType_of_some (T : Ty) (db : State El) (pool : Nat)
    (h : StdMap.find db.m_componentPools (typeId T) = some pool) :
    GetComponentType typeId T db = (db, pool) := by
  simp [GetComponentType, h]

theorem GetComponentType_of_none (T : Ty) (db : State El)
    (h : StdMap.find db.m_componentPools (typeId T) = none) :
    GetComponentType typeId T db =
      ({ db with
          poolHeap := db.poolHeap ++ [⟨T, Pool.create db.m_componentIdx (typeId T)⟩],
          m_componentIdx := db.m_componentIdx + 1,
          m_componentPools := db.m_componentPools ++ [(typeId T, db.poolHeap.length)],
          m_componentTypes := db.m_componentTypes ++ [db.poolHeap.length] },
        db.poolHeap.length) := by
  simp [GetComponentType, h, StdMap.emplace_of_none _ _ _ h]

theorem GetComponentType_find (T : Ty) (db : State El) :
    StdMap.find (GetComponentType typeId T db).1.m_componentPools (typeId T)
      = some (GetComponentType typeId T db).2 := by
  cases h : StdMap.find db.m_componentPools (typeId T) with
  | some pool => rw [GetComponentType_of_some typeId T db pool h]; exact h
  | none =>
    rw [GetComponentType_of_none typeId T db h]
    simp [StdMap.find_append_none _ _ _ _ h]

theorem GetComponentType_twice (T : Ty) (db : State El) :
    GetComponentType typeId T (GetComponentType typeId T db).1 = GetComponentType typeId T db :=
  GetComponentType_of_some typeId T _ _ (GetComponentType_find typeId T db)

theorem Inv_initial : Inv typeId (State.initial : State El) where
  idx := rfl
  types := rfl
  pools_val := rfl
  pools_key := rfl
  keys_nodup := List.nodup_nil
  cell := by intro i o h; simp [State.initial] at h

theorem Inv_congr {db db1 : State El} (h : Inv typeId db)
    (h1 : db1.poolHeap = db.poolHeap) (h2 : db1.m_componentPools = db.m_componentPools)
    (h3 : db1.m_componentTypes = db.m_componentTypes)
    (h4 : db1.m_componentIdx = db.m_componentIdx) : Inv typeId db1 where
  idx := by rw [h4, h1]; exact h.idx
  types := by rw [h3, h1]; exact h.types
  pools_val := by rw [h2, h1]; exact h.pools_val
  pools_key := by rw [h2, h1]; exact h.pools_key
  keys_nodup := by rw [h2]; exact h.keys_nodup
  cell := by rw [h1]; exact h.cell

theorem Inv_heap {db : State El} (h : Inv typeId db) (heap : List (Σ t : Ty, Pool (El t)))
    (hlen : heap.length = db.poolHeap.length)
    (hcell : ∀ (i : Nat) (o1 : Σ t : Ty, Pool (El t)), heap[i]? = some o1 →
      ∃ o, db.poolHeap[i]? = some o ∧ o1.1 = o.1 ∧
        o1.2.componentIndex = o.2.componentIndex ∧ o1.2.componentType = o.2.componentType) :
    Inv typeId { db with poolHeap := heap } where
  idx := by simpa [hlen] using h.idx
  types := by simpa [hlen] using h.types
  pools_val := by simpa [hlen] using h.pools_val
  pools_key := by
    rw [h.pools_key]
    apply List.ext_getElem?
    intro i
    simp only [List.getElem?_map]
    cases h1 : heap[i]? with
    | none =>
      have : db.poolHeap[i]? = none := by
        rw [List.getElem?_eq_none_iff] at h1 ⊢
        omega
      simp [this]
    | some o1 =>
      obtain ⟨o, ho, ht, -, -⟩ := hcell i o1 h1
      simp [ho, ht]
  keys_nodup := h.keys_nodup
  cell := by
    intro i o1 h1
    obtain ⟨o, ho, ht, hi, hc⟩ := hcell i o1 h1
    obtain ⟨c1, c2⟩ := h.cell i o ho
    exact ⟨by rw [hi]; exact c1, by rw [hc, ht]; exact c2⟩

theorem Inv_GetComponentType {db : State El} (h : Inv typeId db) (T : Ty) :
    Inv typeId (GetComponentType typeId T db).1 := by
  cases hf : StdMap.find db.m_componentPools (typeId T) with
  | some pool => rw [GetComponentType_of_some typeId T db pool hf]; exact h
  | none =>
    rw [GetComponentType_of_none typeId T db hf]
    have hk : typeId T ∉ db.m_componentPools.map Prod.fst :=
      (StdMap.find_eq_none_iff _ _).mp hf
    refine ⟨?_, ?_, ?_, ?_, ?_, ?_⟩
    · simp [h.idx]
    · simp [h.types, List.range_succ]
    · simp [h.pools_val, List.range_succ]
    · simp [h.pools_key]
    · simp only [List.map_append, List.map_cons, List.map_nil]
      rw [List.nodup_append]
      refine ⟨h.keys_nodup, List.nodup_singleton _, ?_⟩
      intro a ha hb
      simp only [List.mem_singleton] at hb
      exact hk (hb ▸ ha)
    · intro i o ho
      simp only at ho
      by_cases hi : i < db.poolHeap.length
      · rw [List.getElem?_append_left hi] at ho
        exact h.cell i o ho
      · have hi2 : db.poolHeap.length ≤ i := Nat.le_of_not_lt hi
        rw [List.getElem?_append_right hi2] at ho
        have hz : i - db.poolHeap.length = 0 := by
          cases hd : i - db.poolHeap.length with
          | zero => rfl
          | succ j => rw [hd] at ho; simp at ho
        rw [hz] at ho
        simp only [List.getElem?_cons_zero, Option.some.injEq] at ho
        subst ho
        simp only [Pool.create, and_true]
        rw [h.idx]; omega

theorem GetComponentType_serializers (T : Ty) (db : State El) :
    (GetComponentType typeId T db).1.m_componentSerializers = db.m_componentSerializers ∧
    (GetComponentType typeId T db).1.serializerHeap = db.serializerHeap := by
  cases hf : StdMap.find db.m_componentPools (typeId T) with
  | some pool => rw [GetComponentType_of_some typeId T db pool hf]; exact ⟨rfl, rfl⟩
  | none => rw [GetComponentType_of_none typeId T db hf]; exact ⟨rfl, rfl⟩

theorem RegisterSerializer_of_free (T : Ty) (typeName : String) (db : State El)
    (h : StdMap.find db.m_componentSerializers typeName = none) :
    RegisterSerializer typeId T typeName db = .ok (registered typeId T typeName db, true) := by
  obtain ⟨hs, hh⟩ := GetComponentType_serializers typeId T db
  have hc : StdMap.count db.m_componentSerializers typeName = 0 :=
    (StdMap.count_eq_zero_iff _ _).mpr h
  have hfind := GetComponentType_find typeId T db
  have key : ∀ (X : List (Serializer Ty)) (Y : List (String × Nat)),
      GetComponentType typeId T
        { (GetComponentType typeId T db).1 with serializerHeap := X, m_componentSerializers := Y }
      = ({ (GetComponentType typeId T db).1 with
            serializerHeap := X, m_componentSerializers := Y },
          (GetComponentType typeId T db).2) :=
    fun X Y => GetComponentType_of_some typeId T _ _ hfind
  unfold RegisterSerializer
  rw [if_neg (by simp [hc])]
  simp only [key, hs, hh, StdMap.emplace_of_none _ _ _ h, registered]

theorem RegisterSerializer_of_taken (T : Ty) (typeName : String) (db : State El) (serial : Nat)
    (h : StdMap.find db.m_componentSerializers typeName = some serial) :
    RegisterSerializer typeId T typeName db = .error .assertFailed := by
  have hc : StdMap.count db.m_componentSerializers typeName = 1 := by
    simp [StdMap.count, h]
  simp [RegisterSerializer, hc]

theorem RegisterSerializer_ok (T : Ty) (typeName : String) (db : State El)
    (r : State El × Bool) (h : RegisterSerializer typeId T typeName db = .ok r) :
    StdMap.find db.m_componentSerializers typeName = none ∧
      r = (registered typeId T typeName db, true) := by
  cases hf : StdMap.find db.m_componentSerializers typeName with
  | some serial =>
    rw [RegisterSerializer_of_taken typeId T typeName db serial hf] at h
    cases h
  | none =>
    rw [RegisterSerializer_of_free typeId T typeName db hf] at h
    cases h
    exact ⟨rfl, rfl⟩

theorem modify_setSerializer_cell (serial : Nat) (heap : List (Σ t : Ty, Pool (El t)))
    (a i : Nat) (o1 : Σ t : Ty, Pool (El t))
    (h : (heap.modify (setSerializer serial) a)[i]? = some o1) :
    ∃ o, heap[i]? = some o ∧
      ((a = i ∧ o1 = setSerializer serial o) ∨ (a ≠ i ∧ o1 = o)) := by
  rw [List.getElem?_modify] at h
  cases ho : heap[i]? with
  | none => simp [ho] at h
  | some o =>
    refine ⟨o, rfl, ?_⟩
    by_cases hai : a = i
    · simp [ho, hai] at h
      exact Or.inl ⟨hai, h.symm⟩
    · simp [ho, hai] at h
      exact Or.inr ⟨hai, h.symm⟩

theorem Inv_registered {db : State El} (h : Inv typeId db) (T : Ty) (typeName : String) :
    Inv typeId (registered typeId T typeName db) := by
  have h1 := Inv_GetComponentType typeId h T
  have h2 := Inv_heap typeId h1
    ((GetComponentType typeId T db).1.poolHeap.modify
      (setSerializer db.serializerHeap.length) (GetComponentType typeId T db).2)
    (by simp)
    (by
      intro i o1 ho1
      obtain ⟨o, ho, hcase⟩ := modify_setSerializer_cell _ _ _ _ _ ho1
      refine ⟨o, ho, ?_⟩
      rcases hcase with ⟨-, rfl⟩ | ⟨-, rfl⟩
      · exact ⟨rfl, rfl, rfl⟩
      · exact ⟨rfl, rfl, rfl⟩)
  exact Inv_congr typeId h2 rfl rfl rfl rfl

theorem Inv_callPool {db db1 : State El} (h : Inv typeId db) (pool : Nat)
    (f : (t : Ty) → Pool (El t) → Except Fault (Pool (El t)))
    (hf : ∀ t p p1, f t p = .ok p1 →
      p1.componentIndex = p.componentIndex ∧ p1.componentType = p.componentType)
    (hc : callPool db pool f = .ok db1) : Inv typeId db1 := by
  unfold callPool at hc
  cases ho : db.poolHeap[pool]? with
  | none => simp [ho] at hc
  | some o =>
    simp only [ho] at hc
    cases hr : f o.1 o.2 with
    | error e => simp [hr] at hc
    | ok p1 =>
      simp only [hr, Except.ok.injEq] at hc
      subst hc
      obtain ⟨hi, ht⟩ := hf o.1 o.2 p1 hr
      apply Inv_heap typeId h
      · simp
      · intro i o1 ho1
        rw [List.getElem?_set] at ho1
        by_cases hpi : pool = i
        · subst hpi
          have hlt : pool < db.poolHeap.length := by
            by_contra hge
            rw [List.getElem?_eq_none_iff.mpr (Nat.le_of_not_lt hge)] at ho
            cases ho
          simp only [if_true, hlt, Option.some.injEq] at ho1
          subst ho1
          exact ⟨o, ho, rfl, hi, ht⟩
        · simp only [hpi, if_false] at ho1
          exact ⟨o1, ho1, rfl, rfl, rfl⟩

theorem Pool.newComponent_fields {T : Type} [Inhabited T] (p : Pool T) (e : BodyPtr) :
    (p.newComponent e).1.componentIndex = p.componentIndex ∧
    (p.newComponent e).1.componentType = p.componentType ∧
    (p.newComponent e).1.serializer = p.serializer := by
  cases h : StdMap.find p.m_components e with
  | some n => rw [Pool.newComponent_of_some p e n h]; exact ⟨rfl, rfl, rfl⟩
  | none => rw [Pool.newComponent_of_none p e h]; exact ⟨rfl, rfl, rfl⟩

theorem Pool.get_state {T : Type} (p : Pool T) (e : BodyPtr) (r : Pool T × Nat)
    (h : p.get e = .ok r) : r.1 = p := by
  cases hf : StdMap.find p.m_components e with
  | some n => rw [Pool.get_of_some p e n hf] at h; cases h; rfl
  | none => rw [Pool.get_of_none p e hf] at h; cases h

theorem Pool.WF_update {T : Type} (p : Pool T) (a : Nat) (f : T → T) (h : p.WF) :
    (p.update a f).WF := by
  obtain ⟨h1, h2, h3⟩ := h
  have hk : (p.update a f).m_components.map Prod.fst = p.m_components.map Prod.fst := by
    simp only [Pool.update, List.map_map]
    apply List.map_congr_left
    intro kv _
    by_cases hkv : kv.2.addr = a <;> simp [hkv]
  have ha : (p.update a f).m_components.map (fun kv => kv.2.addr)
      = p.m_components.map (fun kv => kv.2.addr) := by
    simp only [Pool.update, List.map_map]
    apply List.map_congr_left
    intro kv _
    by_cases hkv : kv.2.addr = a <;> simp [hkv]
  refine ⟨by rw [hk]; exact h1, by rw [ha]; exact h2, ?_⟩
  intro kv hkv
  simp only [Pool.update, List.mem_map] at hkv
  obtain ⟨kv0, hkv0, rfl⟩ := hkv
  have := h3 kv0 hkv0
  by_cases hc : kv0.2.addr = a <;> simpa [hc] using this

variable [∀ t, Inhabited (El t)]

theorem Inv_step {db db1 : State El} (h : Inv typeId db) (op : Op El)
    (hs : step typeId db op = .ok db1) : Inv typeId db1 := by
  cases op with
  | getComponentType T =>
    simp only [step, Except.ok.injEq] at hs
    subst hs
    exact Inv_GetComponentType typeId h T
  | getComponentTypeAt i =>
    simp only [step, GetComponentTypeAt] at hs
    split at hs
    · rename_i r hr
      split at hr
      · cases hr; cases hs; exact h
      · cases hr
    · cases hs
  | registerSerializer T n =>
    simp only [step] at hs
    split at hs
    · rename_i r hr
      obtain ⟨-, rfl⟩ := RegisterSerializer_ok typeId T n db r hr
      cases hs
      exact Inv_registered typeId h T n
    · cases hs
  | getSerializer n =>
    simp only [step, GetSerializer] at hs
    split at hs <;> (cases hs; exact h)
  | newComponent pool body =>
    simp only [step] at hs
    refine Inv_callPool typeId h pool _ ?_ hs
    intro t p p1 hp
    cases hp
    exact ⟨(Pool.newComponent_fields p body).1, (Pool.newComponent_fields p body).2.1⟩
  | get pool body =>
    simp only [step] at hs
    refine Inv_callPool typeId h pool _ ?_ hs
    intro t p p1 hp
    split at hp
    · rename_i r hr
      cases hp
      rw [Pool.get_state p body r hr]
      exact ⟨rfl, rfl⟩
    · cases hp
  | deleteComponent pool body =>
    simp only [step] at hs
    refine Inv_callPool typeId h pool _ ?_ hs
    intro t p p1 hp
    cases hp
    exact ⟨rfl, rfl⟩
  | update pool a f =>
    simp only [step] at hs
    refine Inv_callPool typeId h pool _ ?_ hs
    intro t p p1 hp
    cases hp
    exact ⟨rfl, rfl⟩

theorem Inv_run (ops : List (Op El)) {db db1 : State El} (h : Inv typeId db)
    (hr : run typeId ops db = .ok db1) : Inv typeId db1 := by
  induction ops generalizing db with
  | nil => simp only [run, Except.ok.injEq] at hr; subst hr; exact h
  | cons op ops ih =>
    simp only [run] at hr
    cases hs : step typeId db op with
    | error e => simp [hs] at hr
    | ok db2 =>
      simp only [hs] at hr
      exact ih (Inv_step typeId h op hs) hr

theorem Inv_of_Reachable {db : State El} (h : Reachable typeId db) : Inv typeId db := by
  obtain ⟨ops, hr⟩ := h
  exact Inv_run typeId ops (Inv_initial typeId) hr

theorem run_append (ops more : List (Op El)) (db : State El) :
    run typeId (ops ++ more) db =
      match run typeId ops db with
      | .ok db1 => run typeId more db1
      | .error e => .error e := by
  induction ops generalizing db with
  | nil => simp [run]
  | cons op ops ih =>
    simp only [List.cons_append, run]
    cases hs : step typeId db op with
    | error e => simp
    | ok db2 => simp only []; exact ih db2

omit [∀ t, Inhabited (El t)] in
theorem Inv_cell_find {db : State El} (h : Inv typeId db) (i : Nat) (o : Σ t : Ty, Pool (El t))
    (ho : db.poolHeap[i]? = some o) :
    StdMap.find db.m_componentPools (typeId o.1) = some i := by
  have hlt : i < db.poolHeap.length := by
    by_contra hge
    rw [List.getElem?_eq_none_iff.mpr (Nat.le_of_not_lt hge)] at ho
    cases ho
  have hlen : db.m_componentPools.length = db.poolHeap.length := by
    have := congrArg List.length h.pools_val
    simpa using this
  have hk : (db.m_componentPools.map Prod.fst)[i]? = some (typeId o.1) := by
    rw [h.pools_key, List.getElem?_map, ho]; rfl
  have hv : (db.m_componentPools.map Prod.snd)[i]? = some i := by
    rw [h.pools_val]; exact List.getElem?_range hlt
  rw [List.getElem?_map] at hk hv
  cases hkv : db.m_componentPools[i]? with
  | none => rw [hkv] at hk; cases hk
  | some kv =>
    rw [hkv] at hk hv
    simp only [Option.map_some', Option.some.injEq] at hk hv
    apply StdMap.find_of_mem_nodup _ _ _ h.keys_nodup
    have hmem : kv ∈ db.m_componentPools := List.getElem?_mem hkv
    have : kv = (typeId o.1, i) := Prod.ext hk hv
    rw [← this]; exact hmem

omit [∀ t, Inhabited (El t)] in
theorem Inv_find_cell {db : State El} (h : Inv typeId db) (k pool : Nat)
    (hf : StdMap.find db.m_componentPools k = some pool) :
    ∃ o, db.poolHeap[pool]? = some o ∧ typeId o.1 = k := by
  have hmem := StdMap.mem_of_find _ _ _ hf
  obtain ⟨j, hj⟩ := List.getElem?_of_mem hmem
  have hk : (db.m_componentPools.map Prod.fst)[j]? = some k := by
    rw [List.getElem?_map, hj]; rfl
  have hv : (db.m_componentPools.map Prod.snd)[j]? = some pool := by
    rw [List.getElem?_map, hj]; rfl
  rw [h.pools_val] at hv
  rw [h.pools_key, List.getElem?_map] at hk
  have hjp : j = pool := by
    have hlt : j < db.poolHeap.length := by
      by_contra hge
      rw [List.getElem?_eq_none_iff.mpr (by simpa using Nat.le_of_not_lt hge)] at hv
      cases hv
    rw [List.getElem?_range hlt] at hv
    exact Option.some.inj hv
  subst hjp
  cases ho : db.poolHeap[j]? with
  | none => rw [ho] at hk; cases hk
  | some o =>
    rw [ho] at hk
    exact ⟨o, rfl, Option.some.inj hk⟩

theorem requestOrder_extends [DecidableEq Ty] (req seen : List Ty) :
    seen <+: requestOrder seen req := by
  induction req generalizing seen with
  | nil => exact List.prefix_refl _
  | cons T req ih =>
    simp only [requestOrder]
    by_cases hT : T ∈ seen
    · simp only [hT, if_true]; exact ih seen
    · simp only [hT, if_false]
      exact (List.prefix_append seen [T]).trans (ih _)

theorem requestOrder_append [DecidableEq Ty] (req more seen : List Ty) :
    requestOrder seen (req ++ more) = requestOrder (requestOrder seen req) more := by
  induction req generalizing seen with
  | nil => rfl
  | cons T req ih => simp only [List.cons_append, requestOrder]; exact ih _

omit [∀ t, Inhabited (El t)] in
theorem poolTypes_GetComponentType [DecidableEq Ty] (hinj : Function.Injective typeId)
    {db : State El} (h : Inv typeId db) (T : Ty) :
    (GetComponentType typeId T db).1.poolTypes =
      if T ∈ db.poolTypes then db.poolTypes else db.poolTypes ++ [T] := by
  have hiff : StdMap.find db.m_componentPools (typeId T) = none ↔ T ∉ db.poolTypes := by
    rw [StdMap.find_eq_none_iff, h.pools_key]
    simp only [State.poolTypes, List.mem_map, not_exists, not_and]
    constructor
    · intro hn o ho heq
      exact hn o ho (by rw [heq])
    · intro hn o ho heq
      exact hn o ho (hinj heq)
  cases hf : StdMap.find db.m_componentPools (typeId T) with
  | some pool =>
    have hT : T ∈ db.poolTypes := by
      by_contra hn
      rw [hiff.mpr hn] at hf
      cases hf
    rw [GetComponentType_of_some typeId T db pool hf]
    simp [hT]
  | none =>
    rw [GetComponentType_of_none typeId T db hf]
    rw [if_neg (hiff.mp hf)]
    simp [State.poolTypes]

omit [∀ t, Inhabited (El t)] in
theorem poolTypes_registered (T : Ty) (typeName : String) (db : State El) :
    (registered typeId T typeName db).poolTypes = (GetComponentType typeId T db).1.poolTypes := by
  simp only [State.poolTypes, registered]
  apply List.ext_getElem?
  intro i
  simp only [List.getElem?_map, List.getElem?_modify]
  cases (GetComponentType typeId T db).1.poolHeap[i]? with
  | none => rfl
  | some o =>
    by_cases hi : (GetComponentType typeId T db).2 = i <;> simp [hi, setSerializer]

omit [∀ t, Inhabited (El t)] in
theorem poolTypes_callPool {db db1 : State El} (pool : Nat)
    (f : (t : Ty) → Pool (El t) → Except Fault (Pool (El t)))
    (hc : callPool db pool f = .ok db1) : db1.poolTypes = db.poolTypes := by
  unfold callPool at hc
  cases ho : db.poolHeap[pool]? with
  | none => simp [ho] at hc
  | some o =>
    simp only [ho] at hc
    cases hr : f o.1 o.2 with
    | error e => simp [hr] at hc
    | ok p1 =>
      simp only [hr, Except.ok.injEq] at hc
      subst hc
      simp only [State.poolTypes]
      apply List.ext_getElem?
      intro i
      simp only [List.getElem?_map, List.getElem?_set]
      by_cases hpi : pool = i
      · subst hpi
        have hlt : pool < db.poolHeap.length := by
          by_contra hge
          rw [List.getElem?_eq_none_iff.mpr (Nat.le_of_not_lt hge)] at ho
          cases ho
        simp [hlt, ho]
      · simp [hpi]

theorem poolTypes_step [DecidableEq Ty] (hinj : Function.Injective typeId)
    {db db1 : State El} (h : Inv typeId db) (op : Op El)
    (hs : step typeId db op = .ok db1) :
    db1.poolTypes = requestOrder db.poolTypes (Option.toList op.requested) := by
  cases op with
  | getComponentType T =>
    simp only [step, Except.ok.injEq] at hs
    subst hs
    simp only [Op.requested, Option.toList, requestOrder]
    exact poolTypes_GetComponentType typeId hinj h T
  | getComponentTypeAt i =>
    simp only [step, GetComponentTypeAt] at hs
    split at hs
    · rename_i r hr
      split at hr
      · cases hr; cases hs; rfl
      · cases hr
    · cases hs
  | registerSerializer T n =>
    simp only [step] at hs
    split at hs
    · rename_i r hr
      obtain ⟨-, rfl⟩ := RegisterSerializer_ok typeId T n db r hr
      cases hs
      simp only [Op.requested, Option.toList, requestOrder]
      rw [poolTypes_registered]
      exact poolTypes_GetComponentType typeId hinj h T
    · cases hs
  | getSerializer n =>
    simp only [step, GetSerializer] at hs
    split at hs <;> (cases hs; rfl)
  | newComponent pool body => simp only [step] at hs; exact poolTypes_callPool pool _ hs
  | get pool body => simp only [step] at hs; exact poolTypes_callPool pool _ hs
  | deleteComponent pool body => simp only [step] at hs; exact poolTypes_callPool pool _ hs
  | update pool a f => simp only [step] at hs; exact poolTypes_callPool pool _ hs

theorem poolTypes_run [DecidableEq Ty] (hinj : Function.Injective typeId)
    (ops : List (Op El)) {db db1 : State El} (h : Inv typeId db)
    (hr : run typeId ops db = .ok db1) :
    db1.poolTypes = requestOrder db.poolTypes (ops.filterMap Op.requested) := by
  induction ops generalizing db with
  | nil => simp only [run, Except.ok.injEq] at hr; subst hr; rfl
  | cons op ops ih =>
    simp only [run] at hr
    cases hs : step typeId db op with
    | error e => simp [hs] at hr
    | ok db2 =>
      simp only [hs] at hr
      rw [ih (Inv_step typeId h op hs) hr, poolTypes_step typeId hinj h op hs]
      cases hreq : op.requested with
      | none => simp [List.filterMap_cons, hreq, requestOrder]
      | some T => simp [List.filterMap_cons, hreq, requestOrder]

end RegistryLemmas

/-! ## The claims on the registry -/

section RegistryClaims

variable {Ty : Type} {El : Ty → Type}

theorem getElem?_of_isPrefix {α : Type} {l1 l2 : List α} (h : l1 <+: l2) (i : Nat) (a : α)
    (hi : l1[i]? = some a) : l2[i]? = some a := by
  obtain ⟨t, rfl⟩ := h
  have hlt : i < l1.length := by
    by_contra hge
    rw [List.getElem?_eq_none_iff.mpr (Nat.le_of_not_lt hge)] at hi
    cases hi
  rw [List.getElem?_append_left hlt]; exact hi

theorem poolHeap_of_poolTypes (db : State El) (i : Nat) (T : Ty)
    (h : db.poolTypes[i]? = some T) : ∃ p : Pool (El T), db.poolHeap[i]? = some ⟨T, p⟩ := by
  simp only [State.poolTypes, List.getElem?_map] at h
  cases ho : db.poolHeap[i]? with
  | none => rw [ho] at h; cases h
  | some o =>
    rw [ho] at h
    obtain ⟨t, p⟩ := o
    simp only [Option.map_some', Option.some.injEq] at h
    subst h
    exact ⟨p, rfl⟩

/-- Claim C5. Take any sequence of operations that runs from the initial registry, split at any
point into `ops` and `more`, and let `T` be the `k`-th entry (from 0) of the distinct types
requested in `ops`, in the order of first request (a request is a call of `GetComponentType<T>()`
or of `RegisterSerializer<T>`). Then in the state after the whole sequence
`GetComponentType<T>()` returns, without changing the state, a pool of type `T` whose
`componentIndex` is `k`. With `more` empty this is the index given at the first request; with
`more` arbitrary it is every later request. The type keys are assumed to be pairwise different. -/
theorem dense_index_first_request_order [DecidableEq Ty] [∀ t, Inhabited (El t)]
    (typeId : Ty → Nat) (hinj : Function.Injective typeId) (ops more : List (Op El))
    (db : State El) (hrun : run typeId (ops ++ more) State.initial = .ok db)
    (k : Nat) (T : Ty) (hk : (firstRequested ops)[k]? = some T) :
    ∃ (pool : Nat) (p : Pool (El T)),
      GetComponentType typeId T db = (db, pool) ∧
      db.poolHeap[pool]? = some ⟨T, p⟩ ∧ p.componentIndex = k := by
  have hinv : Inv typeId db := Inv_run typeId _ (Inv_initial typeId) hrun
  have htypes := poolTypes_run typeId hinj _ (Inv_initial typeId) hrun
  have hpre : firstRequested ops <+: db.poolTypes := by
    rw [htypes, List.filterMap_append, requestOrder_append]
    exact requestOrder_extends _ _
  obtain ⟨p, hp⟩ := poolHeap_of_poolTypes db k T (getElem?_of_isPrefix hpre k T hk)
  refine ⟨k, p, ?_, hp, (hinv.cell k _ hp).1⟩
  exact GetComponentType_of_some typeId T db k (Inv_cell_find typeId hinv k _ hp)

/-- Claim C6. The accessor `GetComponentType<T>()` returns in every state of the registry. A
second call returns the pool the first returned and leaves the registry as the first call left
it: the type-key map, the dense sequence, the index counter, the serializer tables and every
pool, contents and serializer link included. On the initial registry the call creates the pool
of index 0. -/
theorem GetComponentType_idempotent (typeId : Ty → Nat) (T : Ty) (db : State El) :
    GetComponentType typeId T (GetComponentType typeId T db).1
      = ((GetComponentType typeId T db).1, (GetComponentType typeId T db).2) ∧
    GetComponentType typeId T (State.initial : State El)
      = ({ poolHeap := [⟨T, Pool.create 0 (typeId T)⟩], serializerHeap := [],
           m_componentPools := [(typeId T, 0)], m_componentSerializers := [],
           m_componentTypes := [0], m_componentIdx := 1 }, 0) :=
  ⟨GetComponentType_twice typeId T db, rfl⟩

theorem GetSerializer_eq (typeName : String) (db : State El) :
    GetSerializer typeName db = (db, StdMap.find db.m_componentSerializers typeName) := by
  unfold GetSerializer
  cases StdMap.find db.m_componentSerializers typeName <;> rfl

theorem getElem?_lt {α : Type} {l : List α} {i : Nat} {a : α} (h : l[i]? = some a) :
    i < l.length := by
  by_contra hge
  rw [List.getElem?_eq_none_iff.mpr (Nat.le_of_not_lt hge)] at h
  cases h

/-- Claim C7. In every state `db` a sequence `ops` of operations leads to from the initial
registry: every pool address occurs exactly once among the values of the type-key map and exactly
once in the dense sequence, and these hold nothing but pool addresses; the map finds a pool
under the key that is the pool's `componentType`; the types of the pools of the dense sequence,
in order, are the distinct types requested in `ops` in the order of first request; the pool at
position `i` of the sequence has `componentIndex` `i`; and after any further operations `more`
the same pool, of the same type, is at position `i` and still has `componentIndex` `i`. The type
keys are assumed to be pairwise different. -/
theorem registry_invariant [DecidableEq Ty] [∀ t, Inhabited (El t)]
    (typeId : Ty → Nat) (hinj : Function.Injective typeId) (ops more : List (Op El))
    (db db1 : State El) (hrun : run typeId ops State.initial = .ok db)
    (hmore : run typeId more db = .ok db1) :
    (∀ a, a < db.poolHeap.length →
      (db.m_componentPools.map Prod.snd).count a = 1 ∧ db.m_componentTypes.count a = 1) ∧
    (∀ a, a ∈ db.m_componentPools.map Prod.snd ∨ a ∈ db.m_componentTypes →
      a < db.poolHeap.length) ∧
    (∀ k a : Nat, StdMap.find db.m_componentPools k = some a →
      ∃ o : Σ t : Ty, Pool (El t), db.poolHeap[a]? = some o ∧ o.2.componentType = k) ∧
    db.m_componentTypes.map (fun a => db.poolHeap[a]?.map (fun o => o.1))
      = (firstRequested ops).map some ∧
    (∀ i a : Nat, db.m_componentTypes[i]? = some a →
      ∃ o : Σ t : Ty, Pool (El t), db.poolHeap[a]? = some o ∧ o.2.componentIndex = i ∧
        db1.m_componentTypes[i]? = some a ∧
        ∃ o1 : Σ t : Ty, Pool (El t),
          db1.poolHeap[a]? = some o1 ∧ o1.1 = o.1 ∧ o1.2.componentIndex = i) := by
  have hinv : Inv typeId db := Inv_run typeId _ (Inv_initial typeId) hrun
  have hinv1 : Inv typeId db1 := Inv_run typeId _ hinv hmore
  have htypes : db.poolTypes = firstRequested ops :=
    poolTypes_run typeId hinj _ (Inv_initial typeId) hrun
  have hpre : db.poolTypes <+: db1.poolTypes := by
    rw [poolTypes_run typeId hinj _ hinv hmore]
    exact requestOrder_extends _ _
  refine ⟨?_, ?_, ?_, ?_, ?_⟩
  · intro a ha
    rw [hinv.pools_val, hinv.types]
    have hm : a ∈ List.range db.poolHeap.length := List.mem_range.mpr ha
    exact ⟨List.count_eq_one_of_mem (List.nodup_range _) hm,
      List.count_eq_one_of_mem (List.nodup_range _) hm⟩
  · intro a ha
    rw [hinv.pools_val, hinv.types] at ha
    rcases ha with ha | ha <;> exact List.mem_range.mp ha
  · intro k a hf
    obtain ⟨o, ho, hk⟩ := Inv_find_cell typeId hinv k a hf
    exact ⟨o, ho, by rw [(hinv.cell a o ho).2, hk]⟩
  · rw [← htypes, hinv.types]
    apply List.ext_getElem?
    intro i
    simp only [List.getElem?_map, State.poolTypes]
    by_cases hi : i < db.poolHeap.length
    · rw [List.getElem?_range hi]
      cases ho : db.poolHeap[i]? with
      | none => rw [List.getElem?_eq_none_iff] at ho; omega
      | some o => simp [ho]
    · have hge := Nat.le_of_not_lt hi
      rw [List.getElem?_eq_none_iff.mpr (by simpa using hge),
        List.getElem?_eq_none_iff.mpr hge]
      rfl
  · intro i a hia
    rw [hinv.types] at hia
    have hi : i < db.poolHeap.length := by simpa using getElem?_lt hia
    rw [List.getElem?_range hi] at hia
    cases hia
    cases ho : db.poolHeap[i]? with
    | none => rw [List.getElem?_eq_none_iff] at ho; omega
    | some o =>
      have ht : db.poolTypes[i]? = some o.1 := by
        simp [State.poolTypes, List.getElem?_map, ho]
      obtain ⟨p1, hp1⟩ := poolHeap_of_poolTypes db1 i o.1 (getElem?_of_isPrefix hpre i _ ht)
      have hi1 : i < db1.poolHeap.length := getElem?_lt hp1
      refine ⟨o, rfl, (hinv.cell i o ho).1, ?_, ⟨o.1, p1⟩, hp1, rfl, (hinv1.cell i _ hp1).1⟩
      rw [hinv1.types]
      exact List.getElem?_range hi1

/-- Claim C8. In a reachable state the call `GetComponentType(i)` fails its assertion exactly
when `i` is not below the number of pools created so far (the length of the pool heap, which is
also the value of `m_componentIdx`); for `i` in range it returns, without changing the state,
the pool whose `componentIndex` is `i`, and `GetComponentType<T>()` for the type `T` of that pool
returns the same pool. -/
theorem GetComponentTypeAt_spec [∀ t, Inhabited (El t)]
    (typeId : Ty → Nat) (db : State El) (hreach : Reachable typeId db) (i : Nat) :
    db.m_componentIdx = db.poolHeap.length ∧
    ((∃ f, GetComponentTypeAt i db = .error f) ↔ ¬ i < db.poolHeap.length) ∧
    (GetComponentTypeAt i db = .error .assertFailed ↔ ¬ i < db.poolHeap.length) ∧
    (i < db.poolHeap.length →
      ∃ (pool : Nat) (o : Σ t : Ty, Pool (El t)),
        GetComponentTypeAt i db = .ok (db, pool) ∧
        db.poolHeap[pool]? = some o ∧ o.2.componentIndex = i ∧
        GetComponentType typeId o.1 db = (db, pool)) := by
  have hinv := Inv_of_Reachable typeId hreach
  have hlen : db.m_componentTypes.length = db.poolHeap.length := by
    rw [hinv.types]; simp
  by_cases hi : i < db.poolHeap.length
  · have hi2 : i < db.m_componentTypes.length := by rw [hlen]; exact hi
    have hget : db.m_componentTypes.get ⟨i, hi2⟩ = i := by
      have h1 : db.m_componentTypes[i]? = some i := by
        rw [hinv.types]; exact List.getElem?_range hi
      rw [List.getElem?_eq_getElem hi2] at h1
      exact Option.some.inj h1
    have hok : GetComponentTypeAt i db = .ok (db, i) := by
      simp only [GetComponentTypeAt, hi2, dif_pos, hget]
    refine ⟨hinv.idx, by simp [hok, hi], by simp [hok, hi], ?_⟩
    intro _
    cases ho : db.poolHeap[i]? with
    | none => rw [List.getElem?_eq_none_iff] at ho; omega
    | some o =>
      exact ⟨i, o, hok, ho, (hinv.cell i o ho).1,
        GetComponentType_of_some typeId o.1 db i (Inv_cell_find typeId hinv i o ho)⟩
  · have hi2 : ¬ i < db.m_componentTypes.length := by rw [hlen]; exact hi
    have herr : GetComponentTypeAt i db = .error .assertFailed := by
      simp only [GetComponentTypeAt, hi2, dif_neg, not_false_eq_true]
    refine ⟨hinv.idx, by simp [herr, hi], by simp [herr, hi], ?_⟩
    intro h; exact absurd h hi

/-- Claim C9. In a reachable state with no serializer under `typeName` the call
`RegisterSerializer<T>(typeName)` returns `true`. In the state it leaves, `GetComponentType<T>()`
returns, without a change, the pool `pool` that the accessor gives in the state before: a pool
that existed keeps its heap cell `o0`, one that did not is created at a fresh address with the
next dense index and no component. Only the serializer link of that cell changes: it points to
the new serializer `serial`, which `GetSerializer(typeName)` returns and which holds the name
`typeName` and the pool `pool`. Every other pool is as `GetComponentType<T>()` leaves it. -/
theorem RegisterSerializer_effect [∀ t, Inhabited (El t)]
    (typeId : Ty → Nat) (db : State El) (hreach : Reachable typeId db) (T : Ty)
    (typeName : String) (hfree : (GetSerializer typeName db).2 = none) :
    ∃ (db1 : State El) (pool serial : Nat) (o0 : Σ t : Ty, Pool (El t)),
      RegisterSerializer typeId T typeName db = .ok (db1, true) ∧
      GetComponentType typeId T db1 = (db1, pool) ∧
      (GetComponentType typeId T db).2 = pool ∧
      (GetComponentType typeId T db).1.poolHeap[pool]? = some o0 ∧
      db1.poolHeap[pool]? = some (setSerializer serial o0) ∧
      (∀ a : Nat, a ≠ pool → db1.poolHeap[a]? = (GetComponentType typeId T db).1.poolHeap[a]?) ∧
      (StdMap.find db.m_componentPools (typeId T) = none →
        pool = db.poolHeap.length ∧ o0 = ⟨T, Pool.create db.m_componentIdx (typeId T)⟩ ∧
        (GetComponentType typeId T db).1.m_componentIdx = db.m_componentIdx + 1) ∧
      (∀ p0 : Nat, StdMap.find db.m_componentPools (typeId T) = some p0 →
        pool = p0 ∧ db.poolHeap[p0]? = some o0 ∧ (GetComponentType typeId T db).1 = db) ∧
      GetSerializer typeName db1 = (db1, some serial) ∧
      db1.serializerHeap[serial]? = some { dyn := T, typeName := typeName, pool := pool } := by
  have hinv := Inv_of_Reachable typeId hreach
  have hinv1 := Inv_GetComponentType typeId hinv T
  have hfind : StdMap.find db.m_componentSerializers typeName = none := by
    rw [GetSerializer_eq] at hfree; exact hfree
  have hpool := GetComponentType_find typeId T db
  obtain ⟨o0, ho0, -⟩ := Inv_find_cell typeId hinv1 _ _ hpool
  refine ⟨registered typeId T typeName db, (GetComponentType typeId T db).2,
    db.serializerHeap.length, o0, RegisterSerializer_of_free typeId T typeName db hfind,
    ?_, rfl, ho0, ?_, ?_, ?_, ?_, ?_, ?_⟩
  · exact GetComponentType_of_some typeId T _ _ hpool
  · simp only [registered, List.getElem?_modify_eq, ho0]; rfl
  · intro a ha
    simp only [registered]
    exact List.getElem?_modify_ne _ _ (Ne.symm ha)
  · intro hnone
    rw [GetComponentType_of_none typeId T db hnone] at ho0 ⊢
    simp only [List.getElem?_concat_length, Option.some.injEq] at ho0
    exact ⟨rfl, ho0.symm, rfl⟩
  · intro p0 hsome
    rw [GetComponentType_of_some typeId T db p0 hsome] at ho0 ⊢
    exact ⟨rfl, ho0, rfl⟩
  · rw [GetSerializer_eq]
    simp only [registered, StdMap.find_append_none _ _ _ _ hfind, if_true]
  · simp only [registered, List.getElem?_concat_length]

/-- Claim C10. In a state in which `GetSerializer(typeName)` finds a serializer, the call
`RegisterSerializer<U>(typeName)` fails its assertion for every type `U`, the one registered
under the name included: it returns nothing, so not `true`, and leaves no state in which the
name is bound anew. -/
theorem RegisterSerializer_duplicate_name (typeId : Ty → Nat) (db : State El)
    (typeName : String) (serial : Nat) (htaken : (GetSerializer typeName db).2 = some serial)
    (U : Ty) :
    RegisterSerializer typeId U typeName db = .error .assertFailed ∧
    ∀ r : State El × Bool, RegisterSerializer typeId U typeName db ≠ .ok r := by
  have hfind : StdMap.find db.m_componentSerializers typeName = some serial := by
    rw [GetSerializer_eq] at htaken; exact htaken
  have herr := RegisterSerializer_of_taken typeId U typeName db serial hfind
  refine ⟨herr, ?_⟩
  intro r hr
  rw [herr] at hr
  cases hr

end RegistryClaims

/-! ## The claims at the concrete run -/

section DemoClaims

theorem Demo.run_ops : run id Demo.ops State.initial = .ok Demo.state := rfl

theorem Demo.run_more : run id Demo.more Demo.state = .ok Demo.later := rfl

theorem Demo.run_all : run id (Demo.ops ++ Demo.more) State.initial = .ok Demo.later := rfl

theorem Demo.reachable_state : Reachable id Demo.state := ⟨Demo.ops, Demo.run_ops⟩

/-- Claim C5 at the concrete run: type 3 is the second type requested, and after the whole run
`GetComponentType<3>()` returns a pool of type 3 with `componentIndex` 1. -/
theorem dense_index_first_request_order_demo :
    (firstRequested Demo.ops)[1]? = some 3 ∧
    ∃ (pool : Nat) (p : Pool (Demo.El 3)),
      GetComponentType id 3 Demo.later = (Demo.later, pool) ∧
      Demo.later.poolHeap[pool]? = some ⟨3, p⟩ ∧ p.componentIndex = 1 :=
  ⟨rfl, dense_index_first_request_order id Function.injective_id Demo.ops Demo.more
    Demo.later Demo.run_all 1 3 rfl⟩

/-- Claim C7 at the concrete run: the dense sequence lists the pools of the types 7 and 3, in
this order, and the pool at position 1 keeps its place and its index through the later
operations. -/
theorem registry_invariant_demo :
    Demo.state.m_componentTypes.map (fun a => Demo.state.poolHeap[a]?.map (fun o => o.1))
      = (firstRequested Demo.ops).map some ∧
    (∀ i a : Nat, Demo.state.m_componentTypes[i]? = some a →
      ∃ o : Σ t : Nat, Pool (Demo.El t),
        Demo.state.poolHeap[a]? = some o ∧ o.2.componentIndex = i ∧
        Demo.later.m_componentTypes[i]? = some a ∧
        ∃ o1 : Σ t : Nat, Pool (Demo.El t),
          Demo.later.poolHeap[a]? = some o1 ∧ o1.1 = o.1 ∧ o1.2.componentIndex = i) :=
  (registry_invariant id Function.injective_id Demo.ops Demo.more Demo.state Demo.later
    Demo.run_ops Demo.run_more).2.2.2

/-- Claim C8 at the concrete run: two pools exist, index 1 is in range and index 2 is not. -/
theorem GetComponentTypeAt_spec_demo :
    (∃ (pool : Nat) (o : Σ t : Nat, Pool (Demo.El t)),
      GetComponentTypeAt 1 Demo.state = .ok (Demo.state, pool) ∧
      Demo.state.poolHeap[pool]? = some o ∧ o.2.componentIndex = 1 ∧
      GetComponentType id o.1 Demo.state = (Demo.state, pool)) ∧
    GetComponentTypeAt 2 Demo.state = .error .assertFailed :=
  ⟨(GetComponentTypeAt_spec id Demo.state Demo.reachable_state 1).2.2.2 (by decide),
   (GetComponentTypeAt_spec id Demo.state Demo.reachable_state 2).2.2.1.mpr (by decide)⟩

/-- Claim C9 at the concrete run: type 3, which has a pool with one component, is registered
under a second name, and type 9, which has no pool, under a first. -/
theorem RegisterSerializer_effect_demo :
    (GetSerializer "Orbit2" Demo.state).2 = none ∧
    (∃ (db1 : State Demo.El) (pool serial : Nat) (o0 : Σ t : Nat, Pool (Demo.El t)),
      RegisterSerializer id 3 "Orbit2" Demo.state = .ok (db1, true) ∧
      GetComponentType id 3 db1 = (db1, pool) ∧
      (GetComponentType id 3 Demo.state).2 = pool ∧
      (GetComponentType id 3 Demo.state).1.poolHeap[pool]? = some o0 ∧
      db1.poolHeap[pool]? = some (setSerializer serial o0) ∧
      (∀ a : Nat, a ≠ pool →
        db1.poolHeap[a]? = (GetComponentType id 3 Demo.state).1.poolHeap[a]?) ∧
      (StdMap.find Demo.state.m_componentPools (id 3) = none →
        pool = Demo.state.poolHeap.length ∧
        o0 = ⟨3, Pool.create Demo.state.m_componentIdx (id 3)⟩ ∧
        (GetComponentType id 3 Demo.state).1.m_componentIdx = Demo.state.m_componentIdx + 1) ∧
      (∀ p0 : Nat, StdMap.find Demo.state.m_componentPools (id 3) = some p0 →
        pool = p0 ∧ Demo.state.poolHeap[p0]? = some o0 ∧
        (GetComponentType id 3 Demo.state).1 = Demo.state) ∧
      GetSerializer "Orbit2" db1 = (db1, some serial) ∧
      db1.serializerHeap[serial]? = some { dyn := 3, typeName := "Orbit2", pool := pool }) :=
  ⟨rfl, RegisterSerializer_effect id Demo.state Demo.reachable_state 3 "Orbit2" rfl⟩

/-- Claim C10 at the concrete run: the name Orbit is taken by type 3, and registering type 7
under it fails the assertion. -/
theorem RegisterSerializer_duplicate_name_demo :
    (GetSerializer "Orbit" Demo.state).2 = some 0 ∧
    RegisterSerializer id 7 "Orbit" Demo.state = .error .assertFailed :=
  ⟨rfl, (RegisterSerializer_duplicate_name id Demo.state "Orbit" 0 rfl 7).1⟩

end DemoClaims

/-! ## The pool, continued: writes through a component pointer and the serializer functions -/

section SerializerClaims

variable {T Json Space : Type}

theorem Pool.find_update (p : Pool T) (a : Nat) (f : T → T) (e : BodyPtr) :
    StdMap.find (p.update a f).m_components e =
      (StdMap.find p.m_components e).map
        (fun n => if n.addr = a then { n with val := f n.val } else n) := by
  simp only [Pool.update]
  induction p.m_components with
  | nil => rfl
  | cons hd tl ih =>
    obtain ⟨k, n⟩ := hd
    have hg : (if n.addr = a then (k, ({ n with val := f n.val } : Node T)) else (k, n))
        = (k, if n.addr = a then { n with val := f n.val } else n) := by
      by_cases ha : n.addr = a
      · rw [if_pos ha, if_pos ha]
      · rw [if_neg ha, if_neg ha]
    rw [List.map_cons]
    show StdMap.find ((if n.addr = a then (k, ({ n with val := f n.val } : Node T))
      else (k, n)) :: _) e = _
    rw [hg]
    by_cases hk : k = e
    · simp only [StdMap.find, hk, if_true, Option.map_some']
    · simp only [StdMap.find, hk, if_false]
      exact ih

theorem Pool.keys_update (p : Pool T) (a : Nat) (f : T → T) :
    (p.update a f).m_components.map Prod.fst = p.m_components.map Prod.fst := by
  simp only [Pool.update, List.map_map]
  apply List.map_congr_left
  intro kv _
  by_cases hkv : kv.2.addr = a <;> simp [hkv]

theorem Pool.addr_ne_of_key_ne (p : Pool T) (h : p.WF) (e e1 : BodyPtr) (n n1 : Node T)
    (hn : StdMap.find p.m_components e = some n) (hn1 : StdMap.find p.m_components e1 = some n1)
    (hne : e1 ≠ e) : n1.addr ≠ n.addr := by
  intro heq
  have hm := StdMap.mem_of_find _ _ _ hn
  have hm1 := StdMap.mem_of_find _ _ _ hn1
  have := List.inj_on_of_nodup_map h.2.1 hm1 hm heq
  exact hne (congrArg Prod.fst this)

theorem Pool.newComponent_find_ne [Inhabited T] (p : Pool T) (e e1 : BodyPtr) (hne : e1 ≠ e) :
    StdMap.find (p.newComponent e).1.m_components e1 = StdMap.find p.m_components e1 := by
  cases h : StdMap.find p.m_components e with
  | some n => rw [Pool.newComponent_of_some p e n h]
  | none =>
    rw [Pool.newComponent_of_none p e h]
    cases h1 : StdMap.find p.m_components e1 with
    | some n1 => exact StdMap.find_append_some _ _ _ _ _ h1
    | none =>
      show StdMap.find (p.m_components ++ _) e1 = none
      rw [StdMap.find_append_none _ _ _ _ h1, if_neg (fun h => hne h.symm)]

/-- Claim C20. The call `newComponent(e)` keeps the node of every other key `e1`, so `e1` has a
component afterwards iff it had one, with the same value; a pool that has a component for `e` is
left as it is; a pool that has none gets exactly one new entry, for `e`, holding the default
value of `T`; the index, the type key and the serializer link are kept. -/
theorem newComponent_frame [Inhabited T] (p : Pool T) (e : BodyPtr) :
    (∀ e1, e1 ≠ e →
      StdMap.find (p.newComponent e).1.m_components e1 = StdMap.find p.m_components e1 ∧
      (p.newComponent e).1.component e1 = p.component e1) ∧
    (∀ n, StdMap.find p.m_components e = some n →
      (p.newComponent e).1 = p ∧ (p.newComponent e).1.component e = some n.val) ∧
    (StdMap.find p.m_components e = none →
      (p.newComponent e).1.m_components
        = p.m_components ++ [(e, { addr := p.m_allocated, val := default })] ∧
      (p.newComponent e).1.component e = some default) ∧
    (p.newComponent e).1.componentIndex = p.componentIndex ∧
    (p.newComponent e).1.componentType = p.componentType ∧
    (p.newComponent e).1.serializer = p.serializer := by
  refine ⟨?_, ?_, ?_, Pool.newComponent_fields p e⟩
  · intro e1 hne
    have h := Pool.newComponent_find_ne p e e1 hne
    exact ⟨h, by simp only [Pool.component, h]⟩
  · intro n hn
    rw [Pool.newComponent_of_some p e n hn]
    exact ⟨rfl, by simp [Pool.component, hn]⟩
  · intro hn
    rw [Pool.newComponent_of_none p e hn]
    refine ⟨rfl, ?_⟩
    show Option.map Node.val (StdMap.find (p.m_components ++ _) e) = some default
    rw [StdMap.find_append_none _ _ _ _ hn]
    simp

theorem Pool.component_eq_none (p : Pool T) (e : BodyPtr) :
    p.component e = none ↔ StdMap.find p.m_components e = none := by
  simp [Pool.component]

theorem Pool.component_eq_some (p : Pool T) (e : BodyPtr) (c : T) :
    p.component e = some c ↔ ∃ n, StdMap.find p.m_components e = some n ∧ n.val = c := by
  simp [Pool.component]

theorem Serializer.toJson_of_some (ops : ComponentOps T Json Space) (p : Pool T) (h : p.WF)
    (e : BodyPtr) (n : Node T) (hn : StdMap.find p.m_components e = some n)
    (obj : Json) (space : Space) :
    Serializer.toJson ops p e obj space = .ok (p, ops.SaveToJson n.val obj space) := by
  simp only [Serializer.toJson, Pool.get_of_some p e n hn, Pool.deref_of_find p e n h hn]

theorem Serializer.toJson_of_none (ops : ComponentOps T Json Space) (p : Pool T)
    (e : BodyPtr) (hn : StdMap.find p.m_components e = none) (obj : Json) (space : Space) :
    Serializer.toJson ops p e obj space = .error .outOfRange := by
  simp only [Serializer.toJson, Pool.get_of_none p e hn]

theorem Serializer.fromJson_find [Inhabited T] (ops : ComponentOps T Json Space) (p : Pool T)
    (e : BodyPtr) (obj : Json) (space : Space) :
    ∃ n, StdMap.find (p.newComponent e).1.m_components e = some n ∧
      StdMap.find (Serializer.fromJson ops p e obj space).m_components e
        = some { n with val := ops.LoadFromJson n.val obj space } := by
  obtain ⟨n, hn, ha⟩ := Pool.newComponent_find p e
  refine ⟨n, hn, ?_⟩
  simp only [Serializer.fromJson, Pool.find_update, hn, Option.map_some', ha, if_true]

theorem Serializer.fromJson_find_ne [Inhabited T] (ops : ComponentOps T Json Space) (p : Pool T)
    (h : p.WF) (e e1 : BodyPtr) (hne : e1 ≠ e) (obj : Json) (space : Space) :
    StdMap.find (Serializer.fromJson ops p e obj space).m_components e1
      = StdMap.find p.m_components e1 := by
  obtain ⟨n, hn, ha⟩ := Pool.newComponent_find p e
  have hwf := Pool.WF_newComponent p e h
  simp only [Serializer.fromJson, Pool.find_update]
  rw [← Pool.newComponent_find_ne p e e1 hne]
  cases h1 : StdMap.find (p.newComponent e).1.m_components e1 with
  | none => rfl
  | some n1 =>
    have := Pool.addr_ne_of_key_ne _ hwf e e1 n n1 hn h1 hne
    rw [ha] at this
    simp only [Option.map_some', this, if_false]

/-- Claim C14. Let the save and load routines of `T` be inverse on the document `fresh`: loading,
into any component, the document that saving `c` into `fresh` produces gives `c`. Let `e1` have
the component `c` in a well-formed pool. Then `toJson(e1, fresh, space)` returns a document, and
`fromJson(e2, document, space)` leaves `e2`, whether or not it had a component and whether or not
it is `e1`, with a component equal to `c`. -/
theorem toJson_fromJson_roundtrip [Inhabited T] (ops : ComponentOps T Json Space) (fresh : Json)
    (hinverse : ∀ (c c0 : T) (space : Space),
      ops.LoadFromJson c0 (ops.SaveToJson c fresh space) space = c)
    (p : Pool T) (hwf : p.WF) (e1 e2 : BodyPtr) (c : T) (hc : p.component e1 = some c)
    (space : Space) :
    ∃ (p1 : Pool T) (doc : Json),
      Serializer.toJson ops p e1 fresh space = .ok (p1, doc) ∧
      (Serializer.fromJson ops p1 e2 doc space).component e2 = some c := by
  obtain ⟨n, hn, hval⟩ := (Pool.component_eq_some p e1 c).mp hc
  refine ⟨p, ops.SaveToJson c fresh space, ?_, ?_⟩
  · rw [Serializer.toJson_of_some ops p hwf e1 n hn, hval]
  · obtain ⟨n2, -, h2⟩ := Serializer.fromJson_find ops p e2 (ops.SaveToJson c fresh space) space
    simp only [Pool.component, h2, Option.map_some', hinverse]

/-- Claim C15. On a well-formed pool `toJson(e, obj, space)` does not return exactly when the
pool holds no component for `e`; when it holds the component `c` the document after the call is
what `c.SaveToJson(obj, space)` makes of `obj`, and the pool is as before, so that no component
is created or removed. -/
theorem toJson_spec (ops : ComponentOps T Json Space) (p : Pool T) (hwf : p.WF) (e : BodyPtr)
    (obj : Json) (space : Space) :
    ((∃ f, Serializer.toJson ops p e obj space = .error f) ↔ p.component e = none) ∧
    (∀ c, p.component e = some c →
      Serializer.toJson ops p e obj space = .ok (p, ops.SaveToJson c obj space)) := by
  cases hn : StdMap.find p.m_components e with
  | none =>
    refine ⟨?_, ?_⟩
    · simp [Serializer.toJson_of_none ops p e hn, Pool.component, hn]
    · intro c hc
      simp [Pool.component, hn] at hc
  | some n =>
    refine ⟨?_, ?_⟩
    · simp [Serializer.toJson_of_some ops p hwf e n hn, Pool.component, hn]
    · intro c hc
      have hval : n.val = c := by simpa [Pool.component, hn] using hc
      rw [Serializer.toJson_of_some ops p hwf e n hn, hval]

/-- Claim C16. The call `fromJson(e, obj, space)` always returns. On a well-formed pool: if `e`
has the component `c`, its component afterwards is what `LoadFromJson(obj, space)` makes of `c`;
if `e` has none, it is what the load makes of the default value of `T`; in both cases the key
`e` occurs exactly once in the map afterwards, the node of every other key is as before, and the
index, the type key and the serializer link are kept. -/
theorem fromJson_overlay [Inhabited T] (ops : ComponentOps T Json Space) (p : Pool T)
    (hwf : p.WF) (e : BodyPtr) (obj : Json) (space : Space) :
    (∀ c, p.component e = some c →
      (Serializer.fromJson ops p e obj space).component e
        = some (ops.LoadFromJson c obj space)) ∧
    (p.component e = none →
      (Serializer.fromJson ops p e obj space).component e
        = some (ops.LoadFromJson default obj space)) ∧
    ((Serializer.fromJson ops p e obj space).m_components.map Prod.fst).count e = 1 ∧
    (∀ e1, e1 ≠ e →
      StdMap.find (Serializer.fromJson ops p e obj space).m_components e1
        = StdMap.find p.m_components e1 ∧
      (Serializer.fromJson ops p e obj space).component e1 = p.component e1) ∧
    (Serializer.fromJson ops p e obj space).componentIndex = p.componentIndex ∧
    (Serializer.fromJson ops p e obj space).componentType = p.componentType ∧
    (Serializer.fromJson ops p e obj space).serializer = p.serializer := by
  obtain ⟨n, hn, hfind⟩ := Serializer.fromJson_find ops p e obj space
  refine ⟨?_, ?_, ?_, ?_, (Pool.newComponent_fields p e).1, (Pool.newComponent_fields p e).2.1,
    (Pool.newComponent_fields p e).2.2⟩
  · intro c hc
    obtain ⟨n0, hn0, hval⟩ := (Pool.component_eq_some p e c).mp hc
    rw [Pool.newComponent_of_some p e n0 hn0] at hn
    rw [hn0] at hn
    cases hn
    simp only [Pool.component, hfind, Option.map_some', hval]
  · intro hc
    have hn0 := (Pool.component_eq_none p e).mp hc
    rw [Pool.newComponent_of_none p e hn0] at hn
    have : StdMap.find (p.m_components ++ [(e, ({ addr := p.m_allocated, val := default } : Node T))]) e
        = some n := hn
    rw [StdMap.find_append_none _ _ _ _ hn0, if_pos rfl] at this
    cases this
    simp only [Pool.component, hfind, Option.map_some']
  · have hwf1 := Pool.WF_newComponent p e hwf
    have hkeys : (Serializer.fromJson ops p e obj space).m_components.map Prod.fst
        = (p.newComponent e).1.m_components.map Prod.fst := Pool.keys_update _ _ _
    rw [hkeys]
    apply List.count_eq_one_of_mem hwf1.1
    exact List.mem_map_of_mem Prod.fst (StdMap.mem_of_find _ _ _ hn)
  · intro e1 hne
    have h := Serializer.fromJson_find_ne ops p hwf e e1 hne obj space
    exact ⟨h, by simp only [Pool.component, h]⟩

end SerializerClaims

/-! ## The serializer registry -/

section SerializerRegistry

variable {Ty : Type} {El : Ty → Type} (typeId : Ty → Nat)

theorem callPool_ok {db db1 : State El} (pool : Nat)
    (f : (t : Ty) → Pool (El t) → Except Fault (Pool (El t)))
    (hc : callPool db pool f = .ok db1) :
    ∃ (o : Σ t : Ty, Pool (El t)) (p1 : Pool (El o.1)),
      db.poolHeap[pool]? = some o ∧ f o.1 o.2 = .ok p1 ∧
      db1 = { db with poolHeap := db.poolHeap.set pool ⟨o.1, p1⟩ } := by
  unfold callPool at hc
  cases ho : db.poolHeap[pool]? with
  | none => simp [ho] at hc
  | some o =>
    simp only [ho] at hc
    cases hr : f o.1 o.2 with
    | error e => simp [hr] at hc
    | ok p1 =>
      simp only [hr, Except.ok.injEq] at hc
      exact ⟨o, p1, rfl, hr, hc.symm⟩

/-- What one operation does to the registry: nothing, the creation of a pool, a registration, or
a member call that replaces one pool by a pool with the same index, type key and serializer
link, well formed if the old one is. -/
theorem step_cases [∀ t, Inhabited (El t)] {db db1 : State El} (op : Op El)
    (hs : step typeId db op = .ok db1) :
    (op.registration = none ∧
      (db1 = db ∨ (∃ T, db1 = (GetComponentType typeId T db).1) ∨
        ∃ (pool : Nat) (o : Σ t : Ty, Pool (El t)) (p1 : Pool (El o.1)),
          db.poolHeap[pool]? = some o ∧
          db1 = { db with poolHeap := db.poolHeap.set pool ⟨o.1, p1⟩ } ∧
          p1.componentIndex = o.2.componentIndex ∧ p1.componentType = o.2.componentType ∧
          p1.serializer = o.2.serializer ∧ (o.2.WF → p1.WF))) ∨
    (∃ T typeName, op = .registerSerializer T typeName ∧
      StdMap.find db.m_componentSerializers typeName = none ∧
      db1 = registered typeId T typeName db) := by
  cases op with
  | getComponentType T =>
    simp only [step, Except.ok.injEq] at hs
    exact Or.inl ⟨rfl, Or.inr (Or.inl ⟨T, hs.symm⟩)⟩
  | getComponentTypeAt i =>
    simp only [step, GetComponentTypeAt] at hs
    split at hs
    · rename_i r hr
      split at hr
      · cases hr; cases hs; exact Or.inl ⟨rfl, Or.inl rfl⟩
      · cases hr
    · cases hs
  | registerSerializer T n =>
    simp only [step] at hs
    split at hs
    · rename_i r hr
      obtain ⟨hfree, rfl⟩ := RegisterSerializer_ok typeId T n db r hr
      cases hs
      exact Or.inr ⟨T, n, rfl, hfree, rfl⟩
    · cases hs
  | getSerializer n =>
    simp only [step, GetSerializer] at hs
    split at hs <;> (cases hs; exact Or.inl ⟨rfl, Or.inl rfl⟩)
  | newComponent pool body =>
    simp only [step] at hs
    obtain ⟨o, p1, ho, hf, rfl⟩ := callPool_ok pool _ hs
    cases hf
    obtain ⟨h1, h2, h3⟩ := Pool.newComponent_fields o.2 body
    exact Or.inl ⟨rfl, Or.inr (Or.inr ⟨pool, o, _, ho, rfl, h1, h2, h3,
      Pool.WF_newComponent o.2 body⟩)⟩
  | get pool body =>
    simp only [step] at hs
    obtain ⟨o, p1, ho, hf, rfl⟩ := callPool_ok pool _ hs
    split at hf
    · rename_i r hr
      cases hf
      have := Pool.get_state o.2 body r hr
      exact Or.inl ⟨rfl, Or.inr (Or.inr ⟨pool, o, _, ho, rfl, by rw [this], by rw [this],
        by rw [this], by rw [this]; exact id⟩)⟩
    · cases hf
  | deleteComponent pool body =>
    simp only [step] at hs
    obtain ⟨o, p1, ho, hf, rfl⟩ := callPool_ok pool _ hs
    cases hf
    exact Or.inl ⟨rfl, Or.inr (Or.inr ⟨pool, o, _, ho, rfl, rfl, rfl, rfl,
      Pool.WF_deleteComponent o.2 body⟩)⟩
  | update pool a f =>
    simp only [step] at hs
    obtain ⟨o, p1, ho, hf, rfl⟩ := callPool_ok pool _ hs
    cases hf
    exact Or.inl ⟨rfl, Or.inr (Or.inr ⟨pool, o, _, ho, rfl, rfl, rfl, rfl,
      Pool.WF_update o.2 a (f o.1)⟩)⟩

theorem getElem?_append_singleton {α : Type} (l : List α) (x y : α) (i : Nat)
    (h : (l ++ [x])[i]? = some y) : l[i]? = some y ∨ (i = l.length ∧ y = x) := by
  by_cases hi : i < l.length
  · rw [List.getElem?_append_left hi] at h; exact Or.inl h
  · rw [List.getElem?_append_right (Nat.le_of_not_lt hi)] at h
    cases hd : i - l.length with
    | zero =>
      rw [hd] at h
      simp only [List.getElem?_cons_zero, Option.some.injEq] at h
      exact Or.inr ⟨by omega, h.symm⟩
    | succ j => rw [hd] at h; simp at h

theorem getElem?_append_of_some {α : Type} (l l1 : List α) (y : α) (i : Nat)
    (h : l[i]? = some y) : (l ++ l1)[i]? = some y := by
  rw [List.getElem?_append_left (getElem?_lt h)]; exact h

theorem SerInv_initial : SerInv (State.initial : State El) where
  ser_val := rfl
  ser_key := rfl
  names_nodup := List.nodup_nil
  link := by intro i o s h; simp [State.initial] at h
  pools_wf := by intro i o h; simp [State.initial] at h

theorem SerInv_GetComponentType {db : State El} (h : SerInv db) (T : Ty) :
    SerInv (GetComponentType typeId T db).1 := by
  cases hf : StdMap.find db.m_componentPools (typeId T) with
  | some pool => rw [GetComponentType_of_some typeId T db pool hf]; exact h
  | none =>
    rw [GetComponentType_of_none typeId T db hf]
    refine ⟨h.ser_val, h.ser_key, h.names_nodup, ?_, ?_⟩
    · intro i o s ho hs
      rcases getElem?_append_singleton _ _ _ _ ho with h1 | ⟨-, rfl⟩
      · exact h.link i o s h1 hs
      · simp [Pool.create] at hs
    · intro i o ho
      rcases getElem?_append_singleton _ _ _ _ ho with h1 | ⟨-, rfl⟩
      · exact h.pools_wf i o h1
      · exact Pool.WF_create _ _

theorem SerInv_set {db : State El} (h : SerInv db) (pool : Nat) (o : Σ t : Ty, Pool (El t))
    (p1 : Pool (El o.1)) (ho : db.poolHeap[pool]? = some o)
    (hser : p1.serializer = o.2.serializer) (hwf : o.2.WF → p1.WF) :
    SerInv { db with poolHeap := db.poolHeap.set pool ⟨o.1, p1⟩ } := by
  refine ⟨h.ser_val, h.ser_key, h.names_nodup, ?_, ?_⟩
  · intro i o1 s ho1 hs
    simp only [List.getElem?_set] at ho1
    by_cases hpi : pool = i
    · subst hpi
      simp only [if_true, getElem?_lt ho, Option.some.injEq] at ho1
      subst ho1
      exact h.link pool o s ho (by rw [← hser]; exact hs)
    · simp only [hpi, if_false] at ho1
      exact h.link i o1 s ho1 hs
  · intro i o1 ho1
    simp only [List.getElem?_set] at ho1
    by_cases hpi : pool = i
    · subst hpi
      simp only [if_true, getElem?_lt ho, Option.some.injEq] at ho1
      subst ho1
      exact hwf (h.pools_wf pool o ho)
    · simp only [hpi, if_false] at ho1
      exact h.pools_wf i o1 ho1

theorem SerInv_registered {db : State El} (h : SerInv db) (T : Ty) (typeName : String)
    (hfree : StdMap.find db.m_componentSerializers typeName = none) :
    SerInv (registered typeId T typeName db) := by
  have h1 := SerInv_GetComponentType typeId h T
  obtain ⟨hs, hh⟩ := GetComponentType_serializers typeId T db
  have hk : typeName ∉ db.m_componentSerializers.map Prod.fst :=
    (StdMap.find_eq_none_iff _ _).mp hfree
  refine ⟨?_, ?_, ?_, ?_, ?_⟩
  · simp [registered, h.ser_val, List.range_succ]
  · simp [registered, h.ser_key]
  · simp only [registered, List.map_append, List.map_cons, List.map_nil]
    rw [List.nodup_append]
    refine ⟨h.names_nodup, List.nodup_singleton _, ?_⟩
    intro a ha hb
    simp only [List.mem_singleton] at hb
    exact hk (hb ▸ ha)
  · intro i o1 s ho1 hs1
    simp only [registered] at ho1 ⊢
    obtain ⟨o, ho, hcase⟩ := modify_setSerializer_cell _ _ _ _ _ ho1
    rcases hcase with ⟨hpi, rfl⟩ | ⟨-, rfl⟩
    · simp only [setSerializer, Option.some.injEq] at hs1
      subst hs1
      exact ⟨_, List.getElem?_concat_length _ _, hpi⟩
    · obtain ⟨x, hx, hxp⟩ := h1.link i o1 s ho hs1
      rw [hh] at hx
      exact ⟨x, getElem?_append_of_some _ _ _ _ hx, hxp⟩
  · intro i o1 ho1
    simp only [registered] at ho1
    obtain ⟨o, ho, hcase⟩ := modify_setSerializer_cell _ _ _ _ _ ho1
    rcases hcase with ⟨-, rfl⟩ | ⟨-, rfl⟩
    · exact h1.pools_wf i o ho
    · exact h1.pools_wf i o1 ho

theorem SerInv_step [∀ t, Inhabited (El t)] {db db1 : State El} (h : SerInv db) (op : Op El)
    (hs : step typeId db op = .ok db1) : SerInv db1 := by
  rcases step_cases typeId op hs with ⟨-, rfl | ⟨T, rfl⟩ | ⟨pool, o, p1, ho, rfl, -, -, h3, h4⟩⟩ |
    ⟨T, n, -, hfree, rfl⟩
  · exact h
  · exact SerInv_GetComponentType typeId h T
  · exact SerInv_set h pool o p1 ho h3 h4
  · exact SerInv_registered typeId h T n hfree

theorem SerInv_run [∀ t, Inhabited (El t)] (ops : List (Op El)) {db db1 : State El}
    (h : SerInv db) (hr : run typeId ops db = .ok db1) : SerInv db1 := by
  induction ops generalizing db with
  | nil => simp only [run, Except.ok.injEq] at hr; subst hr; exact h
  | cons op ops ih =>
    simp only [run] at hr
    cases hs : step typeId db op with
    | error e => simp [hs] at hr
    | ok db2 =>
      simp only [hs] at hr
      exact ih (SerInv_step typeId h op hs) hr

theorem StdMap.find_range_iff {K : Type} [DecidableEq K] (m : List (K × Nat)) (n : Nat)
    (hv : m.map Prod.snd = List.range n) (hk : (m.map Prod.fst).Nodup) (k : K) (i : Nat) :
    StdMap.find m k = some i ↔ (m.map Prod.fst)[i]? = some k := by
  have hlen : m.length = n := by
    have := congrArg List.length hv
    simpa using this
  have hsnd : ∀ (j : Nat) (kv : K × Nat), m[j]? = some kv → kv.2 = j := by
    intro j kv hj
    have h1 : (m.map Prod.snd)[j]? = some kv.2 := by rw [List.getElem?_map, hj]; rfl
    rw [hv, List.getElem?_range (by rw [← hlen]; exact getElem?_lt hj)] at h1
    exact (Option.some.inj h1).symm
  constructor
  · intro hf
    obtain ⟨j, hj⟩ := List.getElem?_of_mem (StdMap.mem_of_find _ _ _ hf)
    have := hsnd j _ hj
    simp only at this
    subst this
    rw [List.getElem?_map, hj]; rfl
  · intro hi
    rw [List.getElem?_map] at hi
    cases hkv : m[i]? with
    | none => rw [hkv] at hi; cases hi
    | some kv =>
      rw [hkv] at hi
      simp only [Option.map_some', Option.some.injEq] at hi
      have h2 := hsnd i kv hkv
      have : kv = (k, i) := Prod.ext hi h2
      exact StdMap.find_of_mem_nodup _ _ _ hk (this ▸ List.getElem?_mem hkv)

theorem SerInv_find_iff {db : State El} (h : SerInv db) (typeName : String) (s : Nat) :
    StdMap.find db.m_componentSerializers typeName = some s ↔
      ∃ x, db.serializerHeap[s]? = some x ∧ x.typeName = typeName := by
  rw [StdMap.find_range_iff _ _ h.ser_val h.names_nodup, h.ser_key, List.getElem?_map]
  cases db.serializerHeap[s]? <;> simp

theorem Op.registration_eq_some (op : Op El) (T : Ty) (typeName : String) :
    op.registration = some (T, typeName) ↔ op = .registerSerializer T typeName := by
  cases op <;> simp [Op.registration]

theorem mem_registrations (ops : List (Op El)) (T : Ty) (typeName : String) :
    (T, typeName) ∈ registrations ops ↔ Op.registerSerializer T typeName ∈ ops := by
  simp only [registrations, List.mem_filterMap, Op.registration_eq_some]
  constructor
  · rintro ⟨op, hop, rfl⟩; exact hop
  · intro h; exact ⟨_, h, rfl⟩

theorem history_step [∀ t, Inhabited (El t)] {db db1 : State El} (op : Op El)
    (hs : step typeId db op = .ok db1) :
    db1.serializerHeap.map (fun x => (x.dyn, x.typeName))
      = db.serializerHeap.map (fun x => (x.dyn, x.typeName)) ++ op.registration.toList := by
  rcases step_cases typeId op hs with ⟨hreg, rfl | ⟨T, rfl⟩ | ⟨pool, o, p1, -, rfl, -⟩⟩ |
    ⟨T, n, rfl, -, rfl⟩
  · simp [hreg]
  · simp [hreg, (GetComponentType_serializers typeId T db).2]
  · simp [hreg]
  · simp [registered, Op.registration]

theorem history_run [∀ t, Inhabited (El t)] (ops : List (Op El)) {db db1 : State El}
    (hr : run typeId ops db = .ok db1) :
    db1.serializerHeap.map (fun x => (x.dyn, x.typeName))
      = db.serializerHeap.map (fun x => (x.dyn, x.typeName)) ++ registrations ops := by
  induction ops generalizing db with
  | nil => simp only [run, Except.ok.injEq] at hr; subst hr; simp [registrations]
  | cons op ops ih =>
    simp only [run] at hr
    cases hs : step typeId db op with
    | error e => simp [hs] at hr
    | ok db2 =>
      simp only [hs] at hr
      rw [ih hr, history_step typeId op hs, List.append_assoc]
      congr 1
      cases hreg : op.registration <;> simp [registrations, List.filterMap_cons, hreg]

theorem step_mono [∀ t, Inhabited (El t)] {db db1 : State El} (op : Op El)
    (hs : step typeId db op = .ok db1) :
    (∀ (n : String) (s : Nat), StdMap.find db.m_componentSerializers n = some s →
      StdMap.find db1.m_componentSerializers n = some s) ∧
    (∀ (s : Nat) (x : Serializer Ty),
      db.serializerHeap[s]? = some x → db1.serializerHeap[s]? = some x) ∧
    (∀ k a : Nat, StdMap.find db.m_componentPools k = some a →
      StdMap.find db1.m_componentPools k = some a) := by
  have hgct : ∀ T : Ty, ∀ k a, StdMap.find db.m_componentPools k = some a →
      StdMap.find (GetComponentType typeId T db).1.m_componentPools k = some a := by
    intro T k a hka
    cases hf : StdMap.find db.m_componentPools (typeId T) with
    | some pool => rw [GetComponentType_of_some typeId T db pool hf]; exact hka
    | none =>
      rw [GetComponentType_of_none typeId T db hf]
      exact StdMap.find_append_some _ _ _ _ _ hka
  rcases step_cases typeId op hs with ⟨-, rfl | ⟨T, rfl⟩ | ⟨pool, o, p1, -, rfl, -⟩⟩ |
    ⟨T, n, -, -, rfl⟩
  · exact ⟨fun _ _ h => h, fun _ _ h => h, fun _ _ h => h⟩
  · obtain ⟨h1, h2⟩ := GetComponentType_serializers typeId T db
    exact ⟨fun _ _ h => by rw [h1]; exact h, fun _ _ h => by rw [h2]; exact h, hgct T⟩
  · exact ⟨fun _ _ h => h, fun _ _ h => h, fun _ _ h => h⟩
  · refine ⟨?_, ?_, hgct T⟩
    · intro n1 s h
      exact StdMap.find_append_some _ _ _ _ _ h
    · intro s x h
      exact getElem?_append_of_some _ _ _ _ h

theorem run_mono [∀ t, Inhabited (El t)] (ops : List (Op El)) {db db1 : State El}
    (hr : run typeId ops db = .ok db1) :
    (∀ (n : String) (s : Nat), StdMap.find db.m_componentSerializers n = some s →
      StdMap.find db1.m_componentSerializers n = some s) ∧
    (∀ (s : Nat) (x : Serializer Ty),
      db.serializerHeap[s]? = some x → db1.serializerHeap[s]? = some x) ∧
    (∀ k a : Nat, StdMap.find db.m_componentPools k = some a →
      StdMap.find db1.m_componentPools k = some a) := by
  induction ops generalizing db with
  | nil =>
    simp only [run, Except.ok.injEq] at hr; subst hr
    exact ⟨fun _ _ h => h, fun _ _ h => h, fun _ _ h => h⟩
  | cons op ops ih =>
    simp only [run] at hr
    cases hs : step typeId db op with
    | error e => simp [hs] at hr
    | ok db2 =>
      simp only [hs] at hr
      obtain ⟨a1, a2, a3⟩ := step_mono typeId op hs
      obtain ⟨b1, b2, b3⟩ := ih hr
      exact ⟨fun n s h => b1 n s (a1 n s h), fun s x h => b2 s x (a2 s x h),
        fun k a h => b3 k a (a3 k a h)⟩

theorem backref_GetComponentType {db : State El} (h : Inv typeId db) (U T : Ty) :
    backref typeId (GetComponentType typeId U db).1 T = backref typeId db T := by
  cases hf : StdMap.find db.m_componentPools (typeId U) with
  | some pool => rw [GetComponentType_of_some typeId U db pool hf]
  | none =>
    rw [GetComponentType_of_none typeId U db hf]
    unfold backref
    cases hT : StdMap.find db.m_componentPools (typeId T) with
    | none =>
      simp only [StdMap.find_append_none _ _ _ _ hT]
      by_cases hk : typeId U = typeId T
      · simp [hk, Pool.create]
      · simp [hk]
    | some a =>
      obtain ⟨o, ho, -⟩ := Inv_find_cell typeId h _ _ hT
      simp only [StdMap.find_append_some _ _ _ _ _ hT,
        getElem?_append_of_some _ _ _ _ ho, ho]

theorem backref_set (db : State El) (pool : Nat) (o : Σ t : Ty, Pool (El t))
    (p1 : Pool (El o.1)) (ho : db.poolHeap[pool]? = some o)
    (hser : p1.serializer = o.2.serializer) (T : Ty) :
    backref typeId { db with poolHeap := db.poolHeap.set pool ⟨o.1, p1⟩ } T
      = backref typeId db T := by
  unfold backref
  cases hT : StdMap.find db.m_componentPools (typeId T) with
  | none => simp only []
  | some a =>
    simp only [List.getElem?_set]
    by_cases hpa : pool = a
    · subst hpa
      simp only [if_true, getElem?_lt ho, ho, hser]
    · simp only [hpa, if_false]

theorem backref_registered [DecidableEq Ty] (hinj : Function.Injective typeId)
    {db : State El} (h : Inv typeId db) (U T : Ty) (typeName : String) :
    backref typeId (registered typeId U typeName db) T
      = if U = T then some db.serializerHeap.length else backref typeId db T := by
  have h1 := Inv_GetComponentType typeId h U
  have hfind := GetComponentType_find typeId U db
  obtain ⟨oU, hoU, hkU⟩ := Inv_find_cell typeId h1 _ _ hfind
  rw [← backref_GetComponentType typeId h U T]
  unfold backref
  simp only [registered]
  by_cases hUT : U = T
  · subst hUT
    simp only [hfind, List.getElem?_modify_eq, hoU, if_true]
    rfl
  · simp only [hUT, if_false]
    cases hT : StdMap.find (GetComponentType typeId U db).1.m_componentPools (typeId T) with
    | none => simp only []
    | some a =>
      obtain ⟨o, ho, hk⟩ := Inv_find_cell typeId h1 _ _ hT
      have hne : (GetComponentType typeId U db).2 ≠ a := by
        intro heq
        rw [heq, ho] at hoU
        cases hoU
        exact hUT (hinj (hkU.symm.trans hk))
      simp only [List.getElem?_modify_ne _ _ hne, ho]

theorem backref_run [DecidableEq Ty] [∀ t, Inhabited (El t)] (hinj : Function.Injective typeId)
    (ops : List (Op El)) {db db1 : State El} (h : Inv typeId db)
    (hr : run typeId ops db = .ok db1) (T : Ty) :
    backref typeId db1 T =
      match lastRegistered T (registrations ops) with
      | some n => StdMap.find db1.m_componentSerializers n
      | none => backref typeId db T := by
  induction ops generalizing db with
  | nil => simp only [run, Except.ok.injEq] at hr; subst hr; rfl
  | cons op ops ih =>
    simp only [run] at hr
    cases hs : step typeId db op with
    | error e => simp [hs] at hr
    | ok db2 =>
      simp only [hs] at hr
      have hinv2 := Inv_step typeId h op hs
      have hih := ih hinv2 hr
      rw [hih]
      rcases step_cases typeId op hs with
        ⟨hreg, rfl | ⟨U, rfl⟩ | ⟨pool, o, p1, ho, rfl, -, -, h3, -⟩⟩ | ⟨U, n, rfl, hfree, rfl⟩
      · simp only [registrations, List.filterMap_cons, hreg]
      · simp only [registrations, List.filterMap_cons, hreg,
          backref_GetComponentType typeId h U T]
      · simp only [registrations, List.filterMap_cons, hreg, backref_set typeId db pool o p1 ho h3 T]
      · simp only [registrations, List.filterMap_cons, Op.registration, lastRegistered]
        cases hl : lastRegistered T (List.filterMap Op.registration ops) with
        | some n1 => rfl
        | none =>
          simp only [backref_registered typeId hinj h U T n]
          by_cases hUT : U = T
          · simp only [hUT, if_true]
            have hf : StdMap.find (registered typeId U n db).m_componentSerializers n
                = some db.serializerHeap.length := by
              simp only [registered, StdMap.find_append_none _ _ _ _ hfree, if_true]
            exact ((run_mono typeId ops hr).1 n _ hf).symm
          · simp only [hUT, if_false]

theorem registered_serializers (T : Ty) (typeName : String) (db : State El) :
    (registered typeId T typeName db).m_componentSerializers
      = db.m_componentSerializers ++ [(typeName, db.serializerHeap.length)] := rfl

theorem registered_serializerHeap (T : Ty) (typeName : String) (db : State El) :
    (registered typeId T typeName db).serializerHeap
      = db.serializerHeap ++
        [{ dyn := T, typeName := typeName, pool := (GetComponentType typeId T db).2 }] := rfl

theorem registered_pools (T : Ty) (typeName : String) (db : State El) :
    (registered typeId T typeName db).m_componentPools
      = (GetComponentType typeId T db).1.m_componentPools := rfl

theorem registered_find_self (T : Ty) (typeName : String) (db : State El)
    (hfree : StdMap.find db.m_componentSerializers typeName = none) :
    StdMap.find (registered typeId T typeName db).m_componentSerializers typeName
      = some db.serializerHeap.length := by
  rw [registered_serializers, StdMap.find_append_none _ _ _ _ hfree, if_pos rfl]

theorem registered_GetComponentType (T : Ty) (typeName : String) (db : State El) :
    GetComponentType typeId T (registered typeId T typeName db)
      = (registered typeId T typeName db, (GetComponentType typeId T db).2) :=
  GetComponentType_of_some typeId T _ _ (GetComponentType_find typeId T db)

/-- Claim C11. With two different names `a` and `b`, neither registered, the calls
`RegisterSerializer<T>(a)` and then `RegisterSerializer<T>(b)` both return `true`. Afterwards
`GetSerializer(a)` and `GetSerializer(b)` return two different serializers, the first with the
name `a` and the second with the name `b`, and both hold the pool that `GetComponentType<T>()`
returns. -/
theorem RegisterSerializer_two_names (typeId : Ty → Nat) (db : State El) (T : Ty)
    (a b : String) (hab : a ≠ b) (ha : (GetSerializer a db).2 = none)
    (hb : (GetSerializer b db).2 = none) :
    ∃ (db1 db2 : State El) (sa sb pool : Nat),
      RegisterSerializer typeId T a db = .ok (db1, true) ∧
      RegisterSerializer typeId T b db1 = .ok (db2, true) ∧
      GetSerializer a db2 = (db2, some sa) ∧ GetSerializer b db2 = (db2, some sb) ∧
      sa ≠ sb ∧
      db2.serializerHeap[sa]? = some { dyn := T, typeName := a, pool := pool } ∧
      db2.serializerHeap[sb]? = some { dyn := T, typeName := b, pool := pool } ∧
      GetComponentType typeId T db2 = (db2, pool) := by
  have hfa : StdMap.find db.m_componentSerializers a = none := by
    rw [GetSerializer_eq] at ha; exact ha
  have hfb : StdMap.find db.m_componentSerializers b = none := by
    rw [GetSerializer_eq] at hb; exact hb
  have hfa1 := registered_find_self typeId T a db hfa
  have hg1 := registered_GetComponentType typeId T a db
  have hlen1 : (registered typeId T a db).serializerHeap.length
      = db.serializerHeap.length + 1 := by rw [registered_serializerHeap]; simp
  have hsa1 : (registered typeId T a db).serializerHeap[db.serializerHeap.length]?
      = some { dyn := T, typeName := a, pool := (GetComponentType typeId T db).2 } := by
    rw [registered_serializerHeap]; exact List.getElem?_concat_length _ _
  have hfb1 : StdMap.find (registered typeId T a db).m_componentSerializers b = none := by
    rw [registered_serializers, StdMap.find_append_none _ _ _ _ hfb, if_neg hab]
  have hreg1 := RegisterSerializer_of_free typeId T a db hfa
  generalize registered typeId T a db = db1 at hfa1 hg1 hlen1 hsa1 hfb1 hreg1
  refine ⟨db1, registered typeId T b db1, db.serializerHeap.length,
    db.serializerHeap.length + 1, (GetComponentType typeId T db).2, hreg1,
    RegisterSerializer_of_free typeId T b db1 hfb1, ?_, ?_, by omega, ?_, ?_, ?_⟩
  · rw [GetSerializer_eq, registered_serializers, StdMap.find_append_some _ _ _ _ _ hfa1]
  · rw [GetSerializer_eq, registered_find_self typeId T b db1 hfb1, hlen1]
  · rw [registered_serializerHeap]
    exact getElem?_append_of_some _ _ _ _ hsa1
  · rw [registered_serializerHeap, hg1, ← hlen1]
    exact List.getElem?_concat_length _ _
  · rw [registered_GetComponentType, hg1]

theorem pools_wf_of_Reachable [∀ t, Inhabited (El t)] {db : State El}
    (h : Reachable typeId db) (i : Nat) (o : Σ t : Ty, Pool (El t))
    (ho : db.poolHeap[i]? = some o) : o.2.WF := by
  obtain ⟨ops, hr⟩ := h
  exact (SerInv_run typeId ops SerInv_initial hr).pools_wf i o ho

theorem find_of_registered [∀ t, Inhabited (El t)] (ops : List (Op El)) (db : State El)
    (hrun : run typeId ops State.initial = .ok db) (T : Ty) (typeName : String)
    (hmem : Op.registerSerializer T typeName ∈ ops) :
    ∃ (s : Nat) (x : Serializer Ty),
      StdMap.find db.m_componentSerializers typeName = some s ∧
      db.serializerHeap[s]? = some x ∧ x.typeName = typeName ∧ x.dyn = T := by
  have hser := SerInv_run typeId ops SerInv_initial hrun
  have hhist := history_run typeId ops hrun
  simp only [State.initial, List.map_nil, List.nil_append] at hhist
  have h1 : (T, typeName) ∈ db.serializerHeap.map (fun x => (x.dyn, x.typeName)) := by
    rw [hhist]; exact (mem_registrations ops T typeName).mpr hmem
  obtain ⟨x, hx, hxe⟩ := List.mem_map.mp h1
  obtain ⟨s, hs⟩ := List.getElem?_of_mem hx
  simp only [Prod.mk.injEq] at hxe
  exact ⟨s, x, (SerInv_find_iff hser typeName s).mpr ⟨x, hs, hxe.2⟩, hs, hxe.2, hxe.1⟩

/-- Claim C12. The lookup `GetSerializer(typeName)` always returns and leaves the registry as it
is. After a run `ops` from the initial registry it returns `nullptr` exactly when `ops` holds no
call `RegisterSerializer<T>(typeName)` for any `T` (every call of a run has returned); otherwise
it returns a serializer that holds the name `typeName` and that a call
`RegisterSerializer<T>(typeName)` of `ops`, for the type `T` of the serializer, has made. -/
theorem GetSerializer_spec [∀ t, Inhabited (El t)] (typeId : Ty → Nat) (ops : List (Op El))
    (db : State El) (hrun : run typeId ops State.initial = .ok db) (typeName : String) :
    (GetSerializer typeName db).1 = db ∧
    ((GetSerializer typeName db).2 = none ↔
      ∀ T, Op.registerSerializer T typeName ∉ ops) ∧
    (∀ s, (GetSerializer typeName db).2 = some s →
      ∃ x, db.serializerHeap[s]? = some x ∧ x.typeName = typeName ∧
        Op.registerSerializer x.dyn typeName ∈ ops) := by
  have hser := SerInv_run typeId ops SerInv_initial hrun
  have hhist := history_run typeId ops hrun
  simp only [State.initial, List.map_nil, List.nil_append] at hhist
  rw [GetSerializer_eq]
  refine ⟨rfl, ?_, ?_⟩
  · constructor
    · intro hnone T hmem
      obtain ⟨s, x, hs, -⟩ := find_of_registered typeId ops db hrun T typeName hmem
      simp only at hnone
      rw [hnone] at hs
      cases hs
    · intro hno
      cases hf : StdMap.find db.m_componentSerializers typeName with
      | none => rfl
      | some s =>
        exfalso
        obtain ⟨x, hx, hxn⟩ := (SerInv_find_iff hser typeName s).mp hf
        have h1 : (x.dyn, x.typeName) ∈ db.serializerHeap.map (fun x => (x.dyn, x.typeName)) :=
          List.mem_map_of_mem _ (List.getElem?_mem hx)
        rw [hhist, hxn] at h1
        exact hno x.dyn ((mem_registrations ops x.dyn typeName).mp h1)
  · intro s hs
    obtain ⟨x, hx, hxn⟩ := (SerInv_find_iff hser typeName s).mp hs
    refine ⟨x, hx, hxn, ?_⟩
    have h1 : (x.dyn, x.typeName) ∈ db.serializerHeap.map (fun x => (x.dyn, x.typeName)) :=
      List.mem_map_of_mem _ (List.getElem?_mem hx)
    rw [hhist, hxn] at h1
    exact (mem_registrations ops x.dyn typeName).mp h1

/-- Claim C13. Let `RegisterSerializer<T>(typeName)` return `true` in a state `db`, leaving
`db1`, and let any operations `more` lead from `db1` to `db2`. Then `GetSerializer(typeName)`
returns the same serializer in `db1` and in `db2`, which in both states holds the name
`typeName` and the pool that `GetComponentType<T>()` returns. -/
theorem binding_persists [∀ t, Inhabited (El t)] (typeId : Ty → Nat) (db db1 db2 : State El)
    (T : Ty) (typeName : String)
    (hreg : RegisterSerializer typeId T typeName db = .ok (db1, true))
    (more : List (Op El)) (hmore : run typeId more db1 = .ok db2) :
    ∃ (s pool : Nat),
      GetSerializer typeName db1 = (db1, some s) ∧
      db1.serializerHeap[s]? = some { dyn := T, typeName := typeName, pool := pool } ∧
      GetComponentType typeId T db1 = (db1, pool) ∧
      GetSerializer typeName db2 = (db2, some s) ∧
      db2.serializerHeap[s]? = some { dyn := T, typeName := typeName, pool := pool } ∧
      GetComponentType typeId T db2 = (db2, pool) := by
  obtain ⟨hfree, hdb1⟩ := RegisterSerializer_ok typeId T typeName db _ hreg
  simp only [Prod.mk.injEq, and_true] at hdb1
  subst hdb1
  obtain ⟨m1, m2, m3⟩ := run_mono typeId more hmore
  have hf := registered_find_self typeId T typeName db hfree
  have hx : (registered typeId T typeName db).serializerHeap[db.serializerHeap.length]?
      = some { dyn := T, typeName := typeName, pool := (GetComponentType typeId T db).2 } := by
    rw [registered_serializerHeap]; exact List.getElem?_concat_length _ _
  have hp : StdMap.find (registered typeId T typeName db).m_componentPools (typeId T)
      = some (GetComponentType typeId T db).2 := GetComponentType_find typeId T db
  refine ⟨db.serializerHeap.length, (GetComponentType typeId T db).2, ?_, hx,
    GetComponentType_of_some typeId T _ _ hp, ?_, m2 _ _ hx,
    GetComponentType_of_some typeId T _ _ (m3 _ _ hp)⟩
  · rw [GetSerializer_eq, hf]
  · rw [GetSerializer_eq, m1 _ _ hf]

theorem lastRegistered_eq_none [DecidableEq Ty] (T : Ty) (rs : List (Ty × String))
    (h : ∀ n, (T, n) ∉ rs) : lastRegistered T rs = none := by
  induction rs with
  | nil => rfl
  | cons r rs ih =>
    have h1 : lastRegistered T rs = none :=
      ih (fun n hn => h n (List.mem_cons_of_mem _ hn))
    have h2 : ¬ r.1 = T := by
      intro heq
      apply h r.2
      rw [← heq]
      exact List.mem_cons_self _ _
    simp only [lastRegistered, h1, h2, if_false]

theorem lastRegistered_mem [DecidableEq Ty] (T : Ty) (rs : List (Ty × String)) (n : String)
    (h : lastRegistered T rs = some n) : (T, n) ∈ rs := by
  induction rs with
  | nil => cases h
  | cons r rs ih =>
    simp only [lastRegistered] at h
    cases h1 : lastRegistered T rs with
    | some n1 =>
      rw [h1] at h
      simp only [Option.some.injEq] at h
      subst h
      exact List.mem_cons_of_mem _ (ih h1)
    | none =>
      rw [h1] at h
      by_cases h2 : r.1 = T
      · simp only [h2, if_true, Option.some.injEq] at h
        rw [← h2, ← h]
        exact List.mem_cons_self _ _
      · simp [h2] at h

theorem typed_cell (hinj : Function.Injective typeId) {db : State El} (h : Inv typeId db)
    (T : Ty) (pool : Nat) (hf : StdMap.find db.m_componentPools (typeId T) = some pool) :
    ∃ p : Pool (El T), db.poolHeap[pool]? = some ⟨T, p⟩ ∧ p.componentType = typeId T ∧
      p.componentIndex = pool := by
  obtain ⟨o, ho, hk⟩ := Inv_find_cell typeId h _ _ hf
  obtain ⟨t, p⟩ := o
  have ht : t = T := hinj hk
  subst ht
  exact ⟨p, ho, (h.cell pool _ ho).2, (h.cell pool _ ho).1⟩

/-- Claim C17. In a reachable state, with pairwise different type keys: no key occurs twice in
the type-key map; the pool the map holds under a key `k` has `componentType` `k` and is a pool
of a type whose key is `k`; and the pool `GetComponentType<T>()` returns is a `Pool<T>` (the
heap cell holds the template argument `T`), with `componentType` the key of `T`, so that the
`static_cast` to `Pool<T> *` is a cast to the type of the object. -/
theorem one_pool_per_type_key [∀ t, Inhabited (El t)] (typeId : Ty → Nat)
    (hinj : Function.Injective typeId) (db : State El) (hreach : Reachable typeId db) :
    (∀ k : Nat, (db.m_componentPools.map Prod.fst).count k ≤ 1) ∧
    (∀ k pool : Nat, StdMap.find db.m_componentPools k = some pool →
      ∃ o : Σ t : Ty, Pool (El t),
        db.poolHeap[pool]? = some o ∧ o.2.componentType = k ∧ typeId o.1 = k) ∧
    (∀ T : Ty, ∃ p : Pool (El T),
      (GetComponentType typeId T db).1.poolHeap[(GetComponentType typeId T db).2]?
        = some ⟨T, p⟩ ∧
      p.componentType = typeId T) := by
  have hinv := Inv_of_Reachable typeId hreach
  refine ⟨?_, ?_, ?_⟩
  · intro k
    exact List.nodup_iff_count_le_one.mp hinv.keys_nodup k
  · intro k pool hf
    obtain ⟨o, ho, hk⟩ := Inv_find_cell typeId hinv k pool hf
    exact ⟨o, ho, by rw [(hinv.cell pool o ho).2, hk], hk⟩
  · intro T
    obtain ⟨p, hp, hc, -⟩ := typed_cell typeId hinj (Inv_GetComponentType typeId hinv T) T _
      (GetComponentType_find typeId T db)
    exact ⟨p, hp, hc⟩

/-- Claim C18. A pool that `GetComponentType<T>()` creates has no serializer link. After a run
from the initial registry that holds no call `RegisterSerializer<T>` for the type `T`, whatever
else it holds (calls `RegisterSerializer<U>` for other types, member calls on pools), the pool
`GetComponentType<T>()` returns has `serializer == nullptr`. The type keys are assumed to be
pairwise different. -/
theorem unregistered_type_unserializable [DecidableEq Ty] [∀ t, Inhabited (El t)]
    (typeId : Ty → Nat) (hinj : Function.Injective typeId) (ops : List (Op El))
    (db : State El) (hrun : run typeId ops State.initial = .ok db) (T : Ty)
    (hno : ∀ typeName, Op.registerSerializer T typeName ∉ ops) :
    (∀ db0 : State El, StdMap.find db0.m_componentPools (typeId T) = none →
      (GetComponentType typeId T db0).1.poolHeap[(GetComponentType typeId T db0).2]?
        = some ⟨T, Pool.create db0.m_componentIdx (typeId T)⟩ ∧
      (Pool.create db0.m_componentIdx (typeId T) : Pool (El T)).serializer = none) ∧
    backref typeId db T = none ∧
    ∃ p : Pool (El T),
      (GetComponentType typeId T db).1.poolHeap[(GetComponentType typeId T db).2]?
        = some ⟨T, p⟩ ∧
      p.serializer = none := by
  have hinv := Inv_run typeId ops (Inv_initial typeId) hrun
  have hlast : lastRegistered T (registrations ops) = none :=
    lastRegistered_eq_none T _ (fun n hn => hno n ((mem_registrations ops T n).mp hn))
  have hback : backref typeId db T = none := by
    rw [backref_run typeId hinj ops (Inv_initial typeId) hrun T, hlast]
    rfl
  have hcreate : ∀ db0 : State El, StdMap.find db0.m_componentPools (typeId T) = none →
      (GetComponentType typeId T db0).1.poolHeap[(GetComponentType typeId T db0).2]?
        = some ⟨T, Pool.create db0.m_componentIdx (typeId T)⟩ := by
    intro db0 h0
    rw [GetComponentType_of_none typeId T db0 h0]
    exact List.getElem?_concat_length _ _
  refine ⟨fun db0 h0 => ⟨hcreate db0 h0, rfl⟩, hback, ?_⟩
  cases hf : StdMap.find db.m_componentPools (typeId T) with
  | none => exact ⟨_, hcreate db hf, rfl⟩
  | some pool =>
    obtain ⟨p, hp, -⟩ := typed_cell typeId hinj hinv T pool hf
    rw [GetComponentType_of_some typeId T db pool hf]
    refine ⟨p, hp, ?_⟩
    simp only [backref, hf, hp] at hback
    exact hback

/-- Claim C19. After a run `ops` from the initial registry, with pairwise different type keys:
a serializer link of a pool points to a serializer that is bound to this very pool and that
`GetSerializer` returns for the serializer's own name; the link of the pool of a type `T` is the
serializer that `GetSerializer` returns for the name of the last call `RegisterSerializer<T>`
of `ops`; and every name registered for `T`, the earlier ones included, is still resolved by
`GetSerializer` to a serializer of `T` with that name. -/
theorem backreference_consistent [DecidableEq Ty] [∀ t, Inhabited (El t)]
    (typeId : Ty → Nat) (hinj : Function.Injective typeId) (ops : List (Op El))
    (db : State El) (hrun : run typeId ops State.initial = .ok db) :
    (∀ (pool : Nat) (o : Σ t : Ty, Pool (El t)) (s : Nat),
      db.poolHeap[pool]? = some o → o.2.serializer = some s →
      ∃ x, db.serializerHeap[s]? = some x ∧ x.pool = pool ∧
        GetSerializer x.typeName db = (db, some s)) ∧
    (∀ (T : Ty) (typeName : String), lastRegistered T (registrations ops) = some typeName →
      ∃ (pool : Nat) (p : Pool (El T)) (s : Nat),
        GetComponentType typeId T db = (db, pool) ∧ db.poolHeap[pool]? = some ⟨T, p⟩ ∧
        p.serializer = some s ∧ GetSerializer typeName db = (db, some s)) ∧
    (∀ (T : Ty) (typeName : String), Op.registerSerializer T typeName ∈ ops →
      ∃ (s : Nat) (x : Serializer Ty),
        GetSerializer typeName db = (db, some s) ∧ db.serializerHeap[s]? = some x ∧
        x.typeName = typeName ∧ x.dyn = T) := by
  have hinv := Inv_run typeId ops (Inv_initial typeId) hrun
  have hser := SerInv_run typeId ops SerInv_initial hrun
  refine ⟨?_, ?_, ?_⟩
  · intro pool o s ho hs
    obtain ⟨x, hx, hxp⟩ := hser.link pool o s ho hs
    refine ⟨x, hx, hxp, ?_⟩
    rw [GetSerializer_eq, (SerInv_find_iff hser x.typeName s).mpr ⟨x, hx, rfl⟩]
  · intro T n hlast
    have hmem : Op.registerSerializer T n ∈ ops :=
      (mem_registrations ops T n).mp (lastRegistered_mem T _ n hlast)
    obtain ⟨s, x, hs, -⟩ := find_of_registered typeId ops db hrun T n hmem
    have hback : backref typeId db T = some s := by
      rw [backref_run typeId hinj ops (Inv_initial typeId) hrun T, hlast]
      exact hs
    cases hf : StdMap.find db.m_componentPools (typeId T) with
    | none => simp [backref, hf] at hback
    | some pool =>
      obtain ⟨p, hp, -⟩ := typed_cell typeId hinj hinv T pool hf
      simp only [backref, hf, hp] at hback
      exact ⟨pool, p, s, GetComponentType_of_some typeId T db pool hf, hp, hback,
        by rw [GetSerializer_eq, hs]⟩
  · intro T n hmem
    obtain ⟨s, x, hs, hx, hn, hd⟩ := find_of_registered typeId ops db hrun T n hmem
    exact ⟨s, x, by rw [GetSerializer_eq, hs], hx, hn, hd⟩

end SerializerRegistry

/-! ## The claims on the serializers at the concrete run -/

section DemoSerializerClaims

theorem Demo.pool_wf : Demo.pool.WF := by
  refine ⟨by simp [Demo.pool], by simp [Demo.pool], ?_⟩
  intro kv hkv
  simp only [Demo.pool, List.mem_singleton] at hkv
  subst hkv
  exact Nat.lt_succ_self 0

/-- Claim C11 at the concrete run: type 9 is registered under two new names. -/
theorem RegisterSerializer_two_names_demo :
    ∃ (db1 db2 : State Demo.El) (sa sb pool : Nat),
      RegisterSerializer id 9 "Engine" Demo.state = .ok (db1, true) ∧
      RegisterSerializer id 9 "Thruster" db1 = .ok (db2, true) ∧
      GetSerializer "Engine" db2 = (db2, some sa) ∧
      GetSerializer "Thruster" db2 = (db2, some sb) ∧
      sa ≠ sb ∧
      db2.serializerHeap[sa]? = some { dyn := 9, typeName := "Engine", pool := pool } ∧
      db2.serializerHeap[sb]? = some { dyn := 9, typeName := "Thruster", pool := pool } ∧
      GetComponentType id 9 db2 = (db2, pool) :=
  RegisterSerializer_two_names id Demo.state 9 "Engine" "Thruster" (by decide) rfl rfl

theorem Demo.no_registration_of_name :
    ∀ T, Op.registerSerializer T "DoesNotExist" ∉ Demo.ops := by
  intro T h
  simp [Demo.ops] at h

/-- Claim C12 at the concrete run: the name DoesNotExist is not found, the name Orbit is, and
the serializer found was made by a call of the run. -/
theorem GetSerializer_spec_demo :
    (GetSerializer "DoesNotExist" Demo.state).2 = none ∧
    ∃ x, Demo.state.serializerHeap[0]? = some x ∧ x.typeName = "Orbit" ∧
      Op.registerSerializer x.dyn "Orbit" ∈ Demo.ops :=
  ⟨(GetSerializer_spec id Demo.ops Demo.state Demo.run_ops "DoesNotExist").2.1.mpr
      Demo.no_registration_of_name,
   (GetSerializer_spec id Demo.ops Demo.state Demo.run_ops "Orbit").2.2 0 rfl⟩

/-- Claim C13 at the concrete run: the name Hull, registered for type 7 right after `ops`, is
still bound to the same serializer and pool after the rest of `more`. -/
theorem binding_persists_demo :
    ∃ (s pool : Nat),
      GetSerializer "Hull" (registered id 7 "Hull" Demo.state)
        = (registered id 7 "Hull" Demo.state, some s) ∧
      (registered id 7 "Hull" Demo.state).serializerHeap[s]?
        = some { dyn := 7, typeName := "Hull", pool := pool } ∧
      GetComponentType id 7 (registered id 7 "Hull" Demo.state)
        = (registered id 7 "Hull" Demo.state, pool) ∧
      GetSerializer "Hull" Demo.later = (Demo.later, some s) ∧
      Demo.later.serializerHeap[s]? = some { dyn := 7, typeName := "Hull", pool := pool } ∧
      GetComponentType id 7 Demo.later = (Demo.later, pool) :=
  binding_persists id Demo.state (registered id 7 "Hull" Demo.state) Demo.later 7 "Hull" rfl
    (List.tail Demo.more) rfl

/-- Claim C14 at the concrete run: the component 5 of body 100 is saved into the empty document
and loaded into body 4, which has no component. -/
theorem toJson_fromJson_roundtrip_demo :
    Demo.pool.component 100 = some 5 ∧
    ∃ (p1 : Pool Nat) (doc : List Nat),
      Serializer.toJson Demo.natOps Demo.pool 100 [] () = .ok (p1, doc) ∧
      (Serializer.fromJson Demo.natOps p1 4 doc ()).component 4 = some 5 :=
  ⟨rfl, toJson_fromJson_roundtrip Demo.natOps [] (fun _ _ _ => rfl) Demo.pool Demo.pool_wf
    100 4 5 rfl ()⟩

/-- Claim C15 at the concrete run: saving body 4, which has no component, does not return. -/
theorem toJson_spec_demo :
    ∃ f, Serializer.toJson Demo.natOps Demo.pool 4 [7] () = .error f :=
  (toJson_spec Demo.natOps Demo.pool Demo.pool_wf 4 [7] ()).1.mpr rfl

/-- Claim C16 at the concrete run: loading the document 9 into body 100 replaces its value 5,
and body 100 still occurs once. -/
theorem fromJson_overlay_demo :
    (Serializer.fromJson Demo.natOps Demo.pool 100 [9] ()).component 100 = some 9 ∧
    ((Serializer.fromJson Demo.natOps Demo.pool 100 [9] ()).m_components.map Prod.fst).count 100
      = 1 :=
  ⟨(fromJson_overlay Demo.natOps Demo.pool Demo.pool_wf 100 [9] ()).1 5 rfl,
   (fromJson_overlay Demo.natOps Demo.pool Demo.pool_wf 100 [9] ()).2.2.1⟩

/-- Claim C17 at the concrete run: the accessor for type 3 returns a pool of type 3. -/
theorem one_pool_per_type_key_demo :
    ∃ p : Pool (Demo.El 3),
      (GetComponentType id 3 Demo.state).1.poolHeap[(GetComponentType id 3 Demo.state).2]?
        = some ⟨3, p⟩ ∧
      p.componentType = id 3 :=
  (one_pool_per_type_key id Function.injective_id Demo.state Demo.reachable_state).2.2 3

theorem Demo.no_registration_of_7 :
    ∀ typeName, Op.registerSerializer 7 typeName ∉ Demo.ops := by
  intro typeName h
  simp [Demo.ops] at h

/-- Claim C18 at the concrete run: type 7 is requested and never registered in `ops`, and its
pool has no serializer link although type 3 is registered. -/
theorem unregistered_type_unserializable_demo :
    ∃ p : Pool (Demo.El 7),
      (GetComponentType id 7 Demo.state).1.poolHeap[(GetComponentType id 7 Demo.state).2]?
        = some ⟨7, p⟩ ∧
      p.serializer = none :=
  (unregistered_type_unserializable id Function.injective_id Demo.ops Demo.state Demo.run_ops 7
    Demo.no_registration_of_7).2.2

theorem Demo.run_twice : run id Demo.twice State.initial = .ok Demo.renamed := rfl

/-- Claim C19 at a concrete run: type 3 is registered as Orbit and then as OrbitV2; the link of
its pool is the serializer of OrbitV2, and Orbit is still resolved, to the other serializer. -/
theorem backreference_consistent_demo :
    lastRegistered 3 (registrations Demo.twice) = some "OrbitV2" ∧
    (∃ (pool : Nat) (p : Pool (Demo.El 3)) (s : Nat),
      GetComponentType id 3 Demo.renamed = (Demo.renamed, pool) ∧
      Demo.renamed.poolHeap[pool]? = some ⟨3, p⟩ ∧
      p.serializer = some s ∧ GetSerializer "OrbitV2" Demo.renamed = (Demo.renamed, some s)) ∧
    GetSerializer "Orbit" Demo.renamed = (Demo.renamed, some 0) :=
  ⟨rfl, (backreference_consistent id Function.injective_id Demo.twice Demo.renamed
    Demo.run_twice).2.1 3 "OrbitV2" rfl, rfl⟩

end DemoSerializerClaims

end BodyComponentDB
